import Mathlib

set_option maxRecDepth 100000

/-!
Verification development for the ShellMaster planning-and-reconnaissance
pipeline (src/shellmaster/safety.py, domains.py, graph.py).

The Python code is shallowly embedded over `List Char`:
  * every Python string is a `List Char` (abbreviated `Str`);
  * each `re` pattern used by the source is replaced by an explicit,
    executable scanner proved/argued equivalent to the pattern's semantics
    (the correspondence is documented at each definition);
  * Python sets are fixed as lists in source order — iteration order of a
    Python set is unspecified, but no result proved here depends on it;
  * subprocess execution is abstracted by an oracle `Str → ExecOutcome`
    supplied as a parameter: spawning a process for a command corresponds
    to consulting the oracle at that command.
-/

namespace ShellMaster

abbrev Str := List Char

/-- Conversion from Lean string literals to the `List Char` representation. -/
def lit (s : String) : Str := s.data

/-- ASCII whitespace recognized by Python's `str.strip()` / `\s` on the
character set occurring in this code base. -/
def pySpace (c : Char) : Bool :=
  c = ' ' || c = '\t' || c = '\n' || c = '\r' || c = '\x0b' || c = '\x0c'

/-- Python `s.lstrip()` (ASCII whitespace). -/
def lstrip (s : Str) : Str := s.dropWhile pySpace

/-- Python `s.rstrip()` (ASCII whitespace). -/
def rstrip (s : Str) : Str := (s.reverse.dropWhile pySpace).reverse

/-- Python `s.strip()` (ASCII whitespace). -/
def strip (s : Str) : Str := rstrip (lstrip s)

/-- Python `needle in hay` (substring containment). -/
def hasSub (needle : Str) : Str → Bool
  | [] => needle.isPrefixOf []
  | c :: rest => needle.isPrefixOf (c :: rest) || hasSub needle rest

/-- Remainder of `hay` after the first occurrence of `needle`
(`hay[hay.index(needle) + len(needle):]` when present). -/
def subAfter (needle : Str) : Str → Option Str
  | [] => if needle.isPrefixOf ([] : Str) then some [] else none
  | c :: rest =>
    if needle.isPrefixOf (c :: rest) then some ((c :: rest).drop needle.length)
    else subAfter needle rest

/-- Python `s.lower()`; `Char.toLower` lowercases ASCII letters, which
matches `str.lower` on every character occurring in the safety lists and
probe commands. -/
def lowerStr (s : Str) : Str := s.map Char.toLower

/-- `s.split(sep)` for a single separator character. -/
def splitChAux (sep : Char) : Str → Str → List Str
  | [], acc => [acc.reverse]
  | c :: rest, acc =>
    if c = sep then acc.reverse :: splitChAux sep rest []
    else splitChAux sep rest (c :: acc)

def splitChar (sep : Char) (s : Str) : List Str := splitChAux sep s []

theorem dropWhile_len_le (p : Char → Bool) (l : Str) :
    (l.dropWhile p).length ≤ l.length := by
  induction l with
  | nil => simp
  | cons c rest ih =>
    by_cases h : p c
    · simp only [List.dropWhile_cons_of_pos h]
      exact Nat.le_trans ih (Nat.le_succ _)
    · simp [List.dropWhile_cons_of_neg h]

/-- Python `s.split()` with no argument: split on runs of whitespace,
discarding empty fields.  `acc` holds the current word, reversed. -/
def wsSplitAux : Str → Str → List Str
  | [], acc => if acc = [] then [] else [acc.reverse]
  | c :: rest, acc =>
    if pySpace c then
      if acc = [] then wsSplitAux rest [] else acc.reverse :: wsSplitAux rest []
    else wsSplitAux rest (c :: acc)

def wsSplit (s : Str) : List Str := wsSplitAux s []

/-- `\w` of Python `re` on `str`: ASCII alphanumerics, underscore, and
non-ASCII word characters.  All non-ASCII characters appearing in this
code base's inputs are CJK letters, which Python counts as word
characters, so codepoints ≥ 128 are treated as word characters. -/
def isWordChar (c : Char) : Bool := c.isAlphanum || c = '_' || c.val ≥ 128

end ShellMaster

namespace ShellMaster

/-! ## safety.py — Tier-1 dangerous-pattern scanners

Each scanner implements exactly one entry of `DANGEROUS_PATTERNS`
(safety.py lines 196-212); the accompanying string is the pattern's
source text, used verbatim by `get_safety_reason`. -/

/-- Pattern `>\s*[^|&]`: since `[^|&]` also matches whitespace, the regex
matches iff some `>` is immediately followed by a character other than
`|` and `&`. -/
def hasRedirFile : Str → Bool
  | [] => false
  | c :: rest =>
    (c = '>' && (match rest.head? with
                 | some d => d ≠ '|' && d ≠ '&'
                 | none => false)) || hasRedirFile rest

/-- Pattern `<\s*[^<]`: matches iff some `<` is immediately followed by a
character other than `<` (same whitespace argument as `hasRedirFile`). -/
def hasRedirIn : Str → Bool
  | [] => false
  | c :: rest =>
    (c = '<' && (match rest.head? with
                 | some d => d ≠ '<'
                 | none => false)) || hasRedirIn rest

/-- Pattern `(?<!&)&(?!&)`: an ampersand neither preceded nor followed by
an ampersand.  `prevAmp` records whether the previous character was `&`. -/
def loneAmpAux (prevAmp : Bool) : Str → Bool
  | [] => false
  | '&' :: rest =>
    if !prevAmp && rest.head? ≠ some '&' then true else loneAmpAux true rest
  | _ :: rest => loneAmpAux false rest

def hasLoneAmp (s : Str) : Bool := loneAmpAux false s

def isHexDigitC (c : Char) : Bool :=
  c.isDigit || ('a' ≤ c && c ≤ 'f') || ('A' ≤ c && c ≤ 'F')

/-- Pattern `\\x[0-9a-fA-F]{2}`. -/
def hasHexEsc : Str → Bool
  | '\\' :: 'x' :: a :: b :: rest =>
    if isHexDigitC a && isHexDigitC b then true else hasHexEsc ('x' :: a :: b :: rest)
  | _ :: rest => hasHexEsc rest
  | [] => false

/-- Pattern `\\u[0-9a-fA-F]{4}`. -/
def hasUniEsc : Str → Bool
  | '\\' :: 'u' :: a :: b :: c :: d :: rest =>
    if isHexDigitC a && isHexDigitC b && isHexDigitC c && isHexDigitC d then true
    else hasUniEsc ('u' :: a :: b :: c :: d :: rest)
  | _ :: rest => hasUniEsc rest
  | [] => false

/-- Pattern `\$\{.*:-.*\}`: `.` does not cross newlines, so a match is an
occurrence of `${` then `:-` then `}` within one newline-free segment. -/
def hasParamExp (s : Str) : Bool :=
  (splitChar '\n' s).any fun l =>
    match subAfter (lit "$\x7b") l with
    | none => false
    | some r =>
      match subAfter (lit ":-") r with
      | none => false
      | some r2 => hasSub (lit "\x7d") r2

/-- `DANGEROUS_PATTERNS` (safety.py lines 196-212), in source order, each
paired with its regex source text (the text is interpolated into the
rejection reason by `get_safety_reason`). -/
def DANGEROUS_PATTERNS : List ((Str → Bool) × Str) :=
  [ (hasSub (lit "\x60"), lit "\x60"),
    (hasSub (lit "$("), lit "\\$\\("),
    (hasParamExp, lit "\\$\\\x7b.*:-.*\\\x7d"),
    (hasSub (lit "<("), lit "<\\("),
    (hasSub (lit ">("), lit ">\\("),
    (hasRedirFile, lit ">\\s*[^|&]"),
    (hasSub (lit ">>"), lit ">>\\s*"),
    (hasRedirIn, lit "<\\s*[^<]"),
    (hasSub (lit "||"), lit "\\|\\|"),
    (hasLoneAmp, lit "(?<!&)&(?!&)"),
    (fun s => s.contains ';', lit ";\\s*"),
    (fun s => s.contains '\n', lit "\\n"),
    (fun s => s.contains '\r', lit "\\r"),
    (hasHexEsc, lit "\\\\x[0-9a-fA-F]\x7b2\x7d"),
    (hasUniEsc, lit "\\\\u[0-9a-fA-F]\x7b4\x7d") ]

/-- `_check_dangerous_patterns` returns `True` when SAFE; this is the
complementary "some pattern matches" test. -/
def hasDangerousPattern (s : Str) : Bool := DANGEROUS_PATTERNS.any fun pr => pr.1 s

end ShellMaster

namespace ShellMaster

/-! ## safety.py — Tier-2 dangerous base commands -/

/-- `DANGEROUS_COMMANDS` (safety.py lines 154-193).  The Python object is a
set whose iteration order is unspecified; the list below fixes source
order.  Only membership matters for `is_safe_scout_cmd`, and on every
concrete input considered here at most one entry matches, so
`get_safety_reason` is unaffected by the choice of order. -/
def DANGEROUS_COMMANDS : List Str := List.map lit [
  "rm", "rmdir", "shred", "truncate",
  "mv", "cp",
  "chmod", "chown", "chgrp", "chattr",
  "dd", "mkfs", "fdisk", "parted", "gdisk",
  "mkswap", "swapon", "swapoff",
  "mount", "umount",
  "reboot", "shutdown", "poweroff", "halt", "init",
  "systemctl start", "systemctl stop", "systemctl restart",
  "systemctl enable", "systemctl disable",
  "service start", "service stop", "service restart",
  "useradd", "userdel", "usermod", "groupadd", "groupdel", "groupmod",
  "passwd", "chpasswd", "newusers",
  "iptables", "ip6tables", "nft", "ufw",
  "ip link set", "ip addr add", "ip addr del", "ip route add", "ip route del",
  "ifconfig.*up", "ifconfig.*down",
  "apt install", "apt remove", "apt purge", "apt autoremove",
  "apt-get install", "apt-get remove", "apt-get purge",
  "yum install", "yum remove", "yum erase",
  "dnf install", "dnf remove", "dnf erase",
  "pip install", "pip uninstall", "pip3 install", "pip3 uninstall",
  "npm install", "npm uninstall",
  "docker run", "docker exec", "docker rm", "docker rmi",
  "docker stop", "docker kill", "docker start",
  "docker-compose up", "docker-compose down", "docker-compose rm",
  "kill", "killall", "pkill",
  "crontab", "at",
  "eval", "exec",
  "nc", "ncat", "netcat",
  "ssh", "scp", "rsync" ]

/-- Scanner for `re.search(rf"\b{re.escape(w)}\b", hay)` where `w` starts
and ends with word characters (true of every single-word deny entry):
an occurrence of `w` whose neighbours are absent or non-word characters.
`prev` is the character immediately before the scan position. -/
def wbSearchAux (needle : Str) (prev : Option Char) : Str → Bool
  | [] => false
  | c :: rest =>
    (decide (∀ p, prev = some p → isWordChar p = false) &&
      needle.isPrefixOf (c :: rest) &&
      (match ((c :: rest).drop needle.length).head? with
       | none => true
       | some d => !isWordChar d)) ||
    wbSearchAux needle (some c) rest

def wbSearch (needle hay : Str) : Bool := wbSearchAux needle none hay

/-- One deny-list entry's test against the lowercased command
(safety.py lines 331-340 / 407-413): multi-word entries use substring
containment, single words use word-boundary search. -/
def dangerousHit (entry lowCmd : Str) : Bool :=
  if entry.contains ' ' then hasSub entry lowCmd else wbSearch entry lowCmd

/-- `_check_dangerous_commands` returns `True` when SAFE; this is the
complementary "some deny entry matches" test. -/
def hasDangerousCommand (cmd : Str) : Bool :=
  DANGEROUS_COMMANDS.any fun entry => dangerousHit entry (lowerStr cmd)

/-! ## safety.py — base-command extraction and the allow list -/

/-- `first_word.split("/")[-1]`; when `/` is absent the split is the
singleton list, so taking the last element is the identity, matching the
source's conditional. -/
def lastSlashComp (w : Str) : Str := (splitChar '/' w).getLastD []

/-- `_get_base_command` (safety.py lines 218-237). -/
def get_base_command (cmd : Str) : Str :=
  let c := strip cmd
  let c := if (lit "sudo ").isPrefixOf c then strip (c.drop 5) else c
  match wsSplit c with
  | [] => []
  | w :: _ => lastSlashComp w

/-- `UNCONDITIONAL_ALLOW` (safety.py lines 16-107) in source order.  The
Python set deduplicates repeated entries ("uname", "uptime",
"timedatectl", "stat", "w"); duplicates are harmless for the membership
loop and are kept to mirror the source text. -/
def UNCONDITIONAL_ALLOW : List Str := List.map lit [
  "ls", "cat", "pwd", "echo", "printf", "test", "[",
  "tail", "head", "wc", "whoami", "id", "uname", "hostname",
  "stat", "readlink", "basename", "dirname", "realpath",
  "file", "tree", "md5sum", "sha256sum", "sha1sum",
  "sort", "uniq", "cut", "tr", "nl", "tac", "rev",
  "grep", "egrep", "fgrep", "zgrep",
  "diff", "comm", "join", "paste", "expand", "unexpand",
  "column", "fold", "fmt",
  "less", "more",
  "env", "printenv", "locale", "set",
  "df", "du", "lsblk", "mount", "findmnt", "blkid",
  "find", "locate", "which", "whereis", "type", "command",
  "ps", "pgrep", "pidof", "top", "htop", "free", "uptime", "vmstat",
  "mpstat", "iostat", "sar", "nproc", "getconf",
  "lsof", "fuser",
  "lscpu", "lsmem", "lspci", "lsusb", "lshw", "dmidecode",
  "uname", "hostnamectl", "timedatectl", "localectl",
  "cat /proc/cpuinfo", "cat /proc/meminfo",
  "date", "cal", "uptime", "timedatectl",
  "w", "who", "users", "last", "lastlog", "finger", "pinky",
  "groups", "getent",
  "systemctl status", "systemctl is-active", "systemctl is-enabled",
  "systemctl list-units", "systemctl list-unit-files",
  "systemctl show", "systemctl cat",
  "service", "chkconfig",
  "journalctl", "dmesg",
  "ip", "ifconfig", "ss", "netstat", "ping", "ping6",
  "dig", "nslookup", "host", "resolvectl",
  "traceroute", "tracepath", "mtr",
  "arp", "route", "routel",
  "curl", "wget",
  "dpkg", "dpkg-query", "apt list", "apt show", "apt-cache", "apt-mark",
  "rpm", "yum list", "yum info", "dnf list", "dnf info",
  "pip list", "pip show", "pip freeze",
  "pip3 list", "pip3 show", "pip3 freeze",
  "conda list", "conda info",
  "snap list", "snap info",
  "flatpak list", "flatpak info",
  "npm list", "npm view",
  "gem list", "gem info",
  "docker ps", "docker images", "docker logs", "docker inspect",
  "docker stats", "docker top", "docker port", "docker diff",
  "docker history", "docker version", "docker info",
  "docker-compose ps", "docker-compose logs", "docker-compose config",
  "podman ps", "podman images", "podman logs", "podman inspect",
  "git status", "git log", "git diff", "git branch", "git remote",
  "git show", "git ls-files", "git ls-tree", "git rev-parse",
  "git config --list", "git config --get",
  "getfacl", "getcap", "lsattr",
  "namei", "stat",
  "nvidia-smi", "xhost", "xrandr", "xdpyinfo", "xwininfo",
  "loginctl", "w",
  "jq", "yq", "bc", "expr", "seq", "yes", "true", "false",
  "sleep", "timeout", "tee", "xargs" ]

/-- Keys of `RESTRICTED_COMMANDS` (safety.py lines 110-141). -/
def RESTRICTED_BASES : List Str := List.map lit
  ["sed", "awk", "perl", "curl", "wget", "tee", "sleep"]

/-- `COMBO_ONLY_COMMANDS` (safety.py lines 144-147). -/
def COMBO_ONLY_COMMANDS : List Str := List.map lit ["xargs", "parallel"]

end ShellMaster

namespace ShellMaster

/-! ## safety.py — restricted-command parameter checks -/

/-- Scanner for patterns of the form `w\s*c` (e.g. `system\s*\(`): an
occurrence of the word `w` followed by optional whitespace and then the
character `c`. -/
def seqWsChar (w : Str) (c : Char) : Str → Bool
  | [] => false
  | d :: rest =>
    (w.isPrefixOf (d :: rest) &&
      (match ((d :: rest).drop w.length).dropWhile pySpace with
       | e :: _ => e = c
       | [] => false)) ||
    seqWsChar w c rest

/-- Numeric value of a digit run. -/
def digitsToNat (s : Str) : Nat :=
  s.foldl (fun n c => n * 10 + (c.toNat - '0'.toNat)) 0

/-- `re.search(r"sleep\s+(\d+)", cmd)`: leftmost occurrence of `sleep`
followed by at least one whitespace character and a (maximal) digit run;
returns the run's value. -/
def findSleepNum : Str → Option Nat
  | [] => none
  | c :: rest =>
    if (lit "sleep").isPrefixOf (c :: rest) then
      let after := (c :: rest).drop 5
      let ws := after.takeWhile pySpace
      let tail := after.dropWhile pySpace
      if ws ≠ [] ∧ (tail.takeWhile Char.isDigit) ≠ [] then
        some (digitsToNat (tail.takeWhile Char.isDigit))
      else findSleepNum rest
    else findSleepNum rest

def TEE_ALLOWED_TARGETS : List Str := List.map lit
  ["/dev/null", "/dev/stdout", "/dev/stderr", "-"]

/-- The `tee` rule of `_check_restricted_command` (safety.py lines
266-274): for every `"tee"` token, the following token (when present)
must be an allowed target or begin with `-`. -/
def teeTargetsOk : List Str → Bool
  | p :: q :: rest =>
    if p = lit "tee" && !TEE_ALLOWED_TARGETS.contains q && !(q.head? = some '-')
    then false else teeTargetsOk (q :: rest)
  | _ => true

/-- `_check_restricted_command` (safety.py lines 240-276), specialized to
the seven keys of `RESTRICTED_COMMANDS`; `forbidden_args` entries are
substring tests (including the literal strings `-e.*unlink` /
`-e.*system` of the perl rule), `forbidden_patterns` are regexes. -/
def check_restricted_command (cmd base : Str) : Bool :=
  if base = lit "sed" then
    !(List.map lit ["-i", "--in-place"]).any fun a => hasSub a cmd
  else if base = lit "awk" then
    !(seqWsChar (lit "system") '(' cmd || seqWsChar (lit "print") '>' cmd ||
      seqWsChar (lit "getline") '<' cmd)
  else if base = lit "perl" then
    !(List.map lit ["-i", "-e.*unlink", "-e.*system"]).any fun a => hasSub a cmd
  else if base = lit "curl" then
    !(List.map lit ["-o", "-O", "--output", "-T", "--upload-file",
        "-X POST", "-X PUT", "-X DELETE"]).any fun a => hasSub a cmd
  else if base = lit "wget" then
    !(List.map lit ["--post-data", "--post-file", "--method"]).any fun a => hasSub a cmd
  else if base = lit "sleep" then
    match findSleepNum cmd with
    | some n => decide (n ≤ 10)
    | none => true
  else if base = lit "tee" then
    teeTargetsOk (wsSplit cmd)
  else true

/-! ## safety.py — sub-command allow check -/

/-- Pattern `^[A-Za-z_][A-Za-z0-9_]*=.*$` after the first character. -/
def assignTail : Str → Bool
  | [] => false
  | c :: rest =>
    if c = '=' then true
    else if c.isAlphanum || c = '_' then assignTail rest
    else false

def assignmentMatch : Str → Bool
  | [] => false
  | c :: rest => (c.isAlpha || c = '_') && assignTail rest

/-- The membership loop of `_is_allowed_subcmd` over `UNCONDITIONAL_ALLOW`
(safety.py lines 303-314): multi-word entries match by equality or by
`startswith(entry + " ")`; single-word entries match the base command and
then defer to the restricted check. -/
def allowFold (sub original base : Str) : List Str → Bool
  | [] => false
  | a :: rest =>
    if a.contains ' ' then
      if sub = a || (a ++ [' ']).isPrefixOf sub then true
      else allowFold sub original base rest
    else if base = a then
      if RESTRICTED_BASES.contains a then check_restricted_command original a else true
    else allowFold sub original base rest

def allowListCheck (sub original base : Str) : Bool :=
  if base = [] then false else allowFold sub original base UNCONDITIONAL_ALLOW

/-- `_is_allowed_subcmd` (safety.py lines 279-316). -/
def is_allowed_subcmd (sub0 : Str) : Bool :=
  let sub1 := strip sub0
  if sub1 = [] then false
  else
    let original := sub1
    let sub := if (lit "sudo ").isPrefixOf sub1 then strip (sub1.drop 5) else sub1
    if sub.contains '=' && !sub.contains ' ' then
      if (List.map lit ["\x60", "$(", "\n", "\r", ";"]).any (fun x => hasSub x sub) then
        false
      else if assignmentMatch sub then true
      else allowListCheck sub original (get_base_command sub)
    else allowListCheck sub original (get_base_command sub)

/-! ## safety.py — top-level gate and reason -/

/-- `re.split(r"\s*\|\s*|\s*&&\s*", cmd)`, modulo edge whitespace of each
piece: the regex split additionally consumes whitespace adjacent to each
separator, but every consumer immediately `strip`s each piece, so pieces
are split here at the bare `|` / `&&` tokens.  The number and order of
pieces agree with the regex split, and each piece agrees after `strip`. -/
def rawSplit : Str → Str → List Str
  | [], acc => [acc.reverse]
  | '|' :: rest, acc => acc.reverse :: rawSplit rest []
  | '&' :: '&' :: rest, acc => acc.reverse :: rawSplit rest []
  | c :: rest, acc => rawSplit rest (c :: acc)

def splitPipeline (s : Str) : List Str := rawSplit s []

/-- The indexed sub-command loop of `is_safe_scout_cmd` (safety.py lines
373-385): empty pieces are skipped, a combo-only base at index 0 rejects,
otherwise each piece must be allowed. -/
def checkSubs : Nat → List Str → Bool
  | _, [] => true
  | i, p :: rest =>
    let s := strip p
    if s = [] then checkSubs (i + 1) rest
    else if COMBO_ONLY_COMMANDS.contains (get_base_command s) && i = 0 then false
    else if is_allowed_subcmd s then checkSubs (i + 1) rest
    else false

/-- `is_safe_scout_cmd` (safety.py lines 345-387). -/
def is_safe_scout_cmd (cmd : Str) : Bool :=
  let c := strip cmd
  if c = [] then false
  else if hasDangerousPattern c then false
  else if hasDangerousCommand c then false
  else checkSubs 0 (splitPipeline c)

/-- The sub-command loop of `get_safety_reason` (safety.py lines
416-421), which has no combo-only check. -/
def reasonSubs : List Str → Option Str
  | [] => none
  | p :: rest =>
    let s := strip p
    if s ≠ [] ∧ is_allowed_subcmd s = false then
      some (lit "命令不在白名单中: " ++ get_base_command s)
    else reasonSubs rest

/-- `get_safety_reason` (safety.py lines 390-423). -/
def get_safety_reason (cmd : Str) : Option Str :=
  let c := strip cmd
  if c = [] then some (lit "空命令")
  else
    match DANGEROUS_PATTERNS.find? (fun pr => pr.1 c) with
    | some pr => some (lit "包含危险模式: " ++ pr.2)
    | none =>
      match DANGEROUS_COMMANDS.find? (fun d => dangerousHit d (lowerStr c)) with
      | some d => some (lit "包含危险命令: " ++ d)
      | none => reasonSubs (splitPipeline c)

end ShellMaster

namespace ShellMaster

/-! ## domains.py — validation helpers and the reconnaissance planner -/

/-- `TaskComplexity` (domains.py lines 10-15), an `IntEnum`. -/
def TRIVIAL : Nat := 1
def SIMPLE : Nat := 2
def MODERATE : Nat := 3
def COMPLEX : Nat := 4

/-- The complement of the character class of `shlex.quote`'s
`_find_unsafe` regex with `re.ASCII`: ASCII word characters plus
`@`, `%`, `+`, `=`, `:`, `,`, `.`, slash and hyphen. -/
def shlexSafeChar (c : Char) : Bool :=
  c.isAlphanum || c = '_' ||
    (lit "@%+=:,./-").contains c

/-- `shlex.quote` (the `q` helper of domains.py line 26): safe strings
pass through, everything else is wrapped in single quotes with embedded
single quotes rewritten. -/
def shlexQuote (s : Str) : Str :=
  if s = [] then lit "''"
  else if s.all shlexSafeChar then s
  else ['\x27'] ++ (s.flatMap fun c => if c = '\x27' then lit "'\"'\"'" else [c]) ++ ['\x27']

def nameChar (c : Char) : Bool := c.isAlphanum || (lit "._:@+-").contains c

/-- `safe_name` (domains.py lines 31-36): strip, then require
`^[a-zA-Z0-9._:@+-]{1,128}$`. -/
def safe_name (s : Str) : Option Str :=
  let t := strip s
  if t ≠ [] ∧ t.length ≤ 128 ∧ t.all nameChar then some t else none

/-- `safe_port` (domains.py lines 39-44): strip, then require
`^\d{1,5}$` and a value in (0, 65536). -/
def safe_port (s : Str) : Option Str :=
  let t := strip s
  if t ≠ [] ∧ t.length ≤ 5 ∧ t.all Char.isDigit ∧
      0 < digitsToNat t ∧ digitsToNat t < 65536 then some t else none

def pathChar (c : Char) : Bool := c.isAlphanum || (lit "._/~@+-").contains c

/-- `safe_path` (domains.py lines 47-52). -/
def safe_path (s : Str) : Option Str :=
  let t := strip s
  if t ≠ [] ∧ t.all pathChar then some t else none

/-- Entity mappings are association lists keyed by entity name; a Python
dict lookup `entities.get(k)` is the first binding of `k`. -/
abbrev Entities := List (Str × Str)

def eget (e : Entities) (k : String) : Option Str :=
  (e.find? fun p => p.1 = lit k).map Prod.snd

/-- Truthy lookup: Python code guards every entity use with `if value:`,
so an entry bound to the empty string behaves like an absent one. -/
def egetT (e : Entities) (k : String) : Option Str :=
  match eget e k with
  | some v => if v = [] then none else some v
  | none => none

/-- `a or b` on truthy-filtered lookups (`entities.get(k1) or
entities.get(k2)` followed by a truthiness test). -/
def orElseT (a b : Option Str) : Option Str :=
  match a with
  | some v => some v
  | none => b

/-- `DomainScout.file_commands` (domains.py lines 139-161). -/
def file_commands (e : Entities) (_query : Str) : List Str :=
  let path := egetT e "path"
  let filename := orElseT (egetT e "filename") (egetT e "target")
  (match path with
   | some p =>
     [lit "ls -la " ++ shlexQuote p, lit "file " ++ shlexQuote p,
      lit "stat " ++ shlexQuote p]
   | none => []) ++
  (match filename, path with
   | some n, none =>
     [lit "find . -maxdepth 5 -name " ++ shlexQuote n ++ lit " -type f",
      lit "find /home -maxdepth 4 -name " ++ shlexQuote n ++
        lit " -type f 2>/dev/null || true",
      lit "locate " ++ shlexQuote n ++ lit " 2>/dev/null | head -10 || true"]
   | _, _ => []) ++
  (match path, filename with
   | none, none => [lit "pwd", lit "ls -la"]
   | _, _ => [])

/-- `DomainScout.process_commands` (domains.py lines 163-187). -/
def process_commands (e : Entities) (_query : Str) : List Str :=
  let target := orElseT (egetT e "target") (egetT e "process")
  let pid := egetT e "pid"
  let port := egetT e "port"
  (match pid with
   | some p =>
     [lit "ps -p " ++ p ++ lit " -o pid,ppid,user,%cpu,%mem,stat,start,time,command",
      lit "ls -l /proc/" ++ p ++ lit "/fd 2>/dev/null | head -20 || true"]
   | none =>
     match target with
     | some t =>
       [lit "pgrep -a " ++ shlexQuote t,
        lit "ps aux | grep -i " ++ shlexQuote t ++ lit " | grep -v grep"]
     | none =>
       match port with
       | some p =>
         [lit "ss -tlnp 'sport = :" ++ p ++ lit "'",
          lit "lsof -i :" ++ p ++ lit " 2>/dev/null || true"]
       | none =>
         [lit "ps aux --sort=-%mem | head -15", lit "ps aux --sort=-%cpu | head -15"]) ++
  [lit "free -h", lit "uptime"]

/-- `DomainScout.network_commands` (domains.py lines 189-210). -/
def network_commands (e : Entities) (_query : Str) : List Str :=
  let port := egetT e "port"
  let ip := egetT e "ip"
  let domain := orElseT (egetT e "domain") (egetT e "target")
  [lit "ip -br addr"] ++
  (match port with
   | some p =>
     [lit "ss -tlnp 'sport = :" ++ p ++ lit "'",
      lit "ss -tlnp 'dport = :" ++ p ++ lit "'"]
   | none => []) ++
  (match ip with
   | some i => [lit "ping -c 2 -W 2 " ++ i]
   | none => []) ++
  (match domain, ip with
   | some d, none =>
     [lit "dig +short " ++ shlexQuote d, lit "ping -c 2 -W 2 " ++ shlexQuote d]
   | _, _ => []) ++
  (match port with
   | none => [lit "ss -tlnH | head -20"]
   | some _ => []) ++
  [lit "cat /etc/resolv.conf"]

/-- `DomainScout.service_commands` (domains.py lines 212-228). -/
def service_commands (e : Entities) (_query : Str) : List Str :=
  let service := orElseT (egetT e "service") (egetT e "target")
  match service with
  | some sv =>
    (match safe_name sv with
     | some s =>
       [lit "systemctl status " ++ s ++ lit " --no-pager -l",
        lit "systemctl is-active " ++ s,
        lit "systemctl is-enabled " ++ s,
        lit "journalctl -u " ++ s ++ lit " -n 30 --no-pager"]
     | none => [])
  | none =>
    [lit "systemctl list-units --type=service --state=running --no-pager",
     lit "systemctl list-units --type=service --state=failed --no-pager"]

/-- `DomainScout.system_commands` (domains.py lines 230-236). -/
def system_commands (_e : Entities) (_query : Str) : List Str :=
  List.map lit
    ["uname -a", "cat /etc/os-release", "hostnamectl",
     "uptime", "free -h", "df -hT", "lscpu | head -20", "date"]

/-- `DomainScout.software_commands` (domains.py lines 238-251). -/
def software_commands (e : Entities) (_query : Str) : List Str :=
  [lit "command -v apt dpkg pip pip3 snap flatpak conda"] ++
  (match orElseT (egetT e "package") (egetT e "target") with
   | some pkg =>
     (match safe_name pkg with
      | some s =>
        [lit "dpkg -l " ++ s ++ lit " 2>/dev/null || true",
         lit "apt-cache policy " ++ s ++ lit " 2>/dev/null || true",
         lit "pip3 show " ++ s ++ lit " 2>/dev/null || true",
         lit "snap list " ++ s ++ lit " 2>/dev/null || true",
         lit "which " ++ s ++ lit " 2>/dev/null || true"]
      | none => [])
   | none => [])

/-- `DomainScout.storage_commands` (domains.py lines 253-281). -/
def storage_commands (e : Entities) (_query : Str) : List Str :=
  let path := egetT e "path"
  let target := egetT e "target"
  [lit "lsblk -o NAME,SIZE,TYPE,MOUNTPOINT,LABEL,MODEL,FSTYPE,UUID,PARTLABEL",
   lit "df -hT",
   lit "findmnt -l -o TARGET,SOURCE,FSTYPE,LABEL"] ++
  (match path with
   | some p =>
     [lit "df -hT " ++ shlexQuote p, lit "du -sh " ++ shlexQuote p,
      lit "ls -la " ++ shlexQuote p]
   | none => []) ++
  (match target with
   | some t =>
     [lit "find /mnt /media /run/media -maxdepth 2 -type d -iname " ++
        shlexQuote (lit "*" ++ t ++ lit "*") ++ lit " 2>/dev/null || true",
      lit "blkid",
      lit "lsblk -o NAME,SIZE,MODEL,LABEL,MOUNTPOINT | grep -v 'loop\\|ram' | grep -i " ++
        shlexQuote t ++ lit " || lsblk -e7 -o NAME,SIZE,MODEL,LABEL,MOUNTPOINT"]
   | none => [])

/-- `DomainScout.container_commands` (domains.py lines 283-296). -/
def container_commands (e : Entities) (_query : Str) : List Str :=
  [lit "command -v docker podman docker-compose"] ++
  (match orElseT (egetT e "container") (egetT e "target") with
   | some c =>
     [lit "docker ps -a --filter name=" ++ shlexQuote c ++
        lit " --format 'table \x7b\x7b.ID\x7d\x7d\\t\x7b\x7b.Image\x7d\x7d\\t\x7b\x7b.Status\x7d\x7d\\t\x7b\x7b.Names\x7d\x7d'",
      lit "docker inspect " ++ shlexQuote c ++ lit " 2>/dev/null | head -50 || true",
      lit "docker logs --tail 30 " ++ shlexQuote c ++ lit " 2>/dev/null || true"]
   | none =>
     [lit "docker ps --format 'table \x7b\x7b.ID\x7d\x7d\\t\x7b\x7b.Image\x7d\x7d\\t\x7b\x7b.Status\x7d\x7d\\t\x7b\x7b.Names\x7d\x7d'",
      lit "docker images --format 'table \x7b\x7b.Repository\x7d\x7d\\t\x7b\x7b.Tag\x7d\x7d\\t\x7b\x7b.Size\x7d\x7d'"])

/-- `DomainScout.user_commands` (domains.py lines 298-316). -/
def user_commands (e : Entities) (_query : Str) : List Str :=
  let user := orElseT (egetT e "user") (egetT e "target")
  let path := egetT e "path"
  [lit "id", lit "whoami", lit "groups"] ++
  (match user with
   | some u =>
     [lit "id " ++ shlexQuote u ++ lit " 2>/dev/null || true",
      lit "getent passwd " ++ shlexQuote u]
   | none => []) ++
  (match path with
   | some p =>
     [lit "ls -la " ++ shlexQuote p,
      lit "getfacl " ++ shlexQuote p ++ lit " 2>/dev/null || true",
      lit "stat " ++ shlexQuote p]
   | none => []) ++
  [lit "w", lit "last -5"]

/-- `DomainScout.log_commands` (domains.py lines 318-333). -/
def log_commands (e : Entities) (_query : Str) : List Str :=
  match orElseT (egetT e "service") (egetT e "target") with
  | some sv =>
    (match safe_name sv with
     | some s =>
       [lit "journalctl -u " ++ s ++ lit " -n 50 --no-pager",
        lit "journalctl -u " ++ s ++ lit " -p err -n 20 --no-pager",
        lit "find /var/log -maxdepth 2 -name '*" ++ s ++ lit "*' -type f 2>/dev/null"]
     | none => [])
  | none =>
    [lit "journalctl -p err -n 30 --no-pager",
     lit "dmesg | tail -30",
     lit "ls -lt /var/log/*.log 2>/dev/null | head -10"]

/-- The `domain_methods` dispatch table (domains.py lines 342-353). -/
def domainDispatch (d : Str) : Option (Entities → Str → List Str) :=
  if d = lit "file" then some file_commands
  else if d = lit "process" then some process_commands
  else if d = lit "network" then some network_commands
  else if d = lit "service" then some service_commands
  else if d = lit "system" then some system_commands
  else if d = lit "software" then some software_commands
  else if d = lit "storage" then some storage_commands
  else if d = lit "container" then some container_commands
  else if d = lit "user" then some user_commands
  else if d = lit "log" then some log_commands
  else none

/-- First-occurrence deduplication (domains.py lines 364-369). -/
def dedupAux : List Str → List Str → List Str
  | [], _ => []
  | c :: rest, seen =>
    if seen.contains c then dedupAux rest seen
    else c :: dedupAux rest (c :: seen)

def dedup (l : List Str) : List Str := dedupAux l []

/-- Per-domain slice by complexity (domains.py lines 358-361). -/
def sliceByComplexity (complexity : Nat) (cmds : List Str) : List Str :=
  if complexity = SIMPLE then cmds.take 3
  else if complexity = MODERATE then cmds.take 5
  else cmds

/-- Global cap (`max_cmds.get(complexity, 10)`, domains.py lines 371-376). -/
def globalCap (complexity : Nat) : Nat :=
  if complexity = SIMPLE then 5
  else if complexity = MODERATE then 10
  else if complexity = COMPLEX then 20
  else 10

/-- `get_scout_commands` (domains.py lines 336-376). -/
def get_scout_commands (domains : List Str) (entities : Entities) (query : Str)
    (complexity : Nat) : List Str :=
  if complexity = TRIVIAL then []
  else
    let cmd_set := domains.flatMap fun d =>
      match domainDispatch d with
      | some gen => sliceByComplexity complexity (gen entities query)
      | none => []
    (dedup cmd_set).take (globalCap complexity)

end ShellMaster

namespace ShellMaster

/-! ## graph.py — constants, complexity assessment, refine node -/

def SUPPORTED_DOMAINS : List Str := List.map lit
  ["file", "process", "network", "service", "system",
   "software", "storage", "container", "user", "log"]

/-- The alternatives of `TRIVIAL_PATTERNS` (graph.py lines 38-48).  Every
pattern has the form `^(w1|w2|…)$` and is matched against the lowercased,
stripped query, so the disjunction of all patterns is exact membership in
this word list. -/
def TRIVIAL_PATTERN_WORDS : List Str := List.map lit
  ["pwd", "当前目录", "当前路径", "我在哪",
   "whoami", "我是谁", "当前用户",
   "date", "时间", "日期", "几点", "什么时候",
   "uptime", "运行时间", "开机多久",
   "hostname", "主机名",
   "uname", "系统版本", "内核版本",
   "id", "用户id", "用户信息",
   "df", "磁盘空间", "磁盘使用",
   "free", "内存", "内存使用"]

/-- `DIAGNOSTIC_KEYWORDS` (graph.py lines 51-55). -/
def DIAGNOSTIC_KEYWORDS : List Str := List.map lit
  ["为什么", "怎么回事", "排查", "诊断", "问题",
   "不工作", "失败", "错误", "异常", "故障",
   "无法", "不能", "连不上", "打不开", "起不来"]

/-- `TRIVIAL_COMMANDS` (graph.py lines 57-82). -/
def TRIVIAL_COMMANDS : List (Str × Str) :=
  (List.map (fun p => (lit p.1, lit p.2)))
  [("pwd", "pwd"), ("当前目录", "pwd"), ("当前路径", "pwd"), ("我在哪", "pwd"),
   ("whoami", "whoami"), ("我是谁", "whoami"), ("当前用户", "whoami"),
   ("date", "date"), ("时间", "date '+%Y-%m-%d %H:%M:%S'"),
   ("日期", "date '+%Y-%m-%d'"), ("几点", "date '+%H:%M:%S'"),
   ("uptime", "uptime"), ("运行时间", "uptime"), ("开机多久", "uptime"),
   ("hostname", "hostname"), ("主机名", "hostname"),
   ("id", "id"), ("用户id", "id"),
   ("df", "df -h"), ("磁盘空间", "df -h"), ("磁盘使用", "df -h"),
   ("free", "free -h"), ("内存", "free -h"), ("内存使用", "free -h")]

/-- Dict lookup on an association list (first binding wins, matching a
Python dict with unique keys). -/
def egetS (e : List (Str × Str)) (k : Str) : Option Str :=
  (e.find? fun p => p.1 = k).map Prod.snd

/-- `query.strip().lower() in TRIVIAL_COMMANDS` and the subsequent lookup
(graph.py lines 334-335). -/
def trivialLookup (query : Str) : Option Str :=
  egetS TRIVIAL_COMMANDS (lowerStr (strip query))

/-- The intent mapping as used by `assess_complexity` and `refine_node`:
recognized keys of the parsed LLM JSON.  `complexity = none` models a
missing `"complexity"` key (`intent.get("complexity", 2)`); the advisory
`action` field is not consumed by any embedded code path and is omitted. -/
structure Intent where
  domains : List Str
  entities : Entities
  complexity : Option Int

/-- `assess_complexity` (graph.py lines 140-158). -/
def assess_complexity (query : Str) (intent : Intent) : Nat :=
  let query_lower := strip (lowerStr query)
  if TRIVIAL_PATTERN_WORDS.contains query_lower then TRIVIAL
  else if DIAGNOSTIC_KEYWORDS.any (fun k => hasSub k query) then COMPLEX
  else if intent.domains.length ≥ 3 then COMPLEX
  else if intent.domains.length = 2 then MODERATE
  else if ([ "target", "path", "filename", "port", "service", "container"
           ] : List String).any (fun k => (egetT intent.entities k).isSome)
  then SIMPLE
  else MODERATE

/-- Domain validation of `refine_node` (graph.py lines 365-368).  The
`isinstance(domains, str)` wrapping branch (line 366) is represented by
the caller already supplying a list. -/
def validateDomains (ds : List Str) : List Str :=
  let ds1 := if ds = [] then [lit "file"] else ds
  let ds2 := ds1.filter fun d => SUPPORTED_DOMAINS.contains d
  if ds2 = [] then [lit "file"] else ds2

/-- `intent["entities"][key] = value` (insert or overwrite). -/
def setEnt (e : Entities) (k v : Str) : Entities :=
  if (e.find? fun p => p.1 = k).isSome then
    e.map fun p => if p.1 = k then (k, v) else p
  else e ++ [(k, v)]

/-- `entities.get(k)` is falsy: the key is absent or bound to `""`. -/
def falsyAt (e : Entities) (k : Str) : Bool :=
  match egetS e k with
  | some v => v.isEmpty
  | none => true

/-- The regex-fallback entity merge of `refine_node` (graph.py lines
370-374): a regex entity is taken only when truthy and when the LLM value
is falsy. -/
def mergeEntities (ents : Entities) (regexEnts : Entities) : Entities :=
  regexEnts.foldl
    (fun acc kv =>
      if kv.2 ≠ [] ∧ falsyAt acc kv.1 then setEnt acc kv.1 kv.2 else acc)
    ents

/-- The target cross-promotion of `refine_node` (graph.py lines 376-380). -/
def promoteTarget (ents : Entities) : Entities :=
  let target := match egetS ents (lit "target") with
                | some v => if v = [] then none else some v
                | none => none
  let ents1 :=
    match target with
    | some t =>
      if t.head? = some '/' ∧ falsyAt ents (lit "path") then
        setEnt ents (lit "path") t
      else ents
    | none => ents
  match target with
  | some t =>
    if t ≠ [] ∧ t.all Char.isDigit ∧ falsyAt ents1 (lit "port") then
      setEnt ents1 (lit "port") t
    else ents1
  | none => ents1

/-- The intent produced by `refine_node`'s validation steps on the
non-trivial path, given the parsed LLM intent and the regex-extracted
entities (`extract_entities_from_query(query)`, which is passed here as
the parameter `regexEnts`). -/
def validatedIntent (parsed : Intent) (regexEnts : Entities) : Intent :=
  ⟨validateDomains parsed.domains,
   promoteTarget (mergeEntities parsed.entities regexEnts),
   parsed.complexity⟩

/-- Result of `refine_node`: the validated intent, the stored complexity,
and the trivial fast-path command when taken. -/
structure RefineOut where
  intent : Intent
  complexity : Int
  command : Option Str

/-- `refine_node` (graph.py lines 328-390) on the two code paths that do
not raise: the trivial fast path (lines 334-342) and the normal path with
a parsed intent (the LLM call and JSON parsing are abstracted by passing
the parsed intent; parse/LLM failures produce the default intent, which
is just one particular value of `parsed`). -/
def refine_node (query : Str) (parsed : Intent) (regexEnts : Entities) : RefineOut :=
  match trivialLookup query with
  | some cmd => ⟨⟨[lit "file"], [], none⟩, (TRIVIAL : Int), some cmd⟩
  | none =>
    let intent := validatedIntent parsed regexEnts
    let llm_complexity := parsed.complexity.getD 2
    let assessed : Int := assess_complexity query intent
    ⟨intent, max llm_complexity assessed, none⟩

end ShellMaster

namespace ShellMaster

/-! ## graph.py — JSON repair (`fix_json_string`, lines 180-189) -/

/-- `re.sub(r"```json\s*", "", s)`.  The scan proceeds left to right;
`skipWs` records that the position lies in the greedy `\s*` tail of a
match, whose whitespace is consumed. -/
def rmTJaux : Bool → Str → Str
  | _, [] => []
  | _, '\x60' :: '\x60' :: '\x60' :: 'j' :: 's' :: 'o' :: 'n' :: rest2 => rmTJaux true rest2
  | skipWs, c :: rest =>
    if skipWs && pySpace c then rmTJaux true rest else c :: rmTJaux false rest

def rmTicksJson (s : Str) : Str := rmTJaux false s

/-- `re.sub(r"```\s*", "", s)`, same scheme. -/
def rmTaux : Bool → Str → Str
  | _, [] => []
  | _, '\x60' :: '\x60' :: '\x60' :: rest2 => rmTaux true rest2
  | skipWs, c :: rest =>
    if skipWs && pySpace c then rmTaux true rest else c :: rmTaux false rest

def rmTicks (s : Str) : Str := rmTaux false s

/-- `re.search(r"\{[\s\S]*\}", s)` and replacement by the match: the span
from the first `{` to the last `}`, when the last `}` lies strictly after
the first `{`; otherwise there is no match and `s` is returned. -/
def extractBraces (s : Str) : Str :=
  let a := s.dropWhile fun c => c ≠ '\x7b'
  let b := (a.reverse.dropWhile fun c => c ≠ '\x7d').reverse
  if b = [] then s else b

/-- `s.replace("'", '"')`. -/
def quoteFix (s : Str) : Str := s.map fun c => if c = '\x27' then '"' else c

/-- `re.sub(r",\s*X", "X", s)` for a closing character `X`.  `pending`
holds the whitespace seen since a pending `,`; a pending comma either
completes a match at `X` (the span is replaced by `X`) or is flushed when
a non-whitespace, non-`X` character arrives.  Positions inside `pending`
other than the comma are whitespace and cannot start a match, so flushing
them is faithful to the regex scan. -/
def commaFixAux (close : Char) : Option Str → Str → Str
  | none, [] => []
  | some ws, [] => ',' :: ws
  | some ws, c :: rest =>
    if c = close then close :: commaFixAux close none rest
    else if pySpace c then commaFixAux close (some (ws ++ [c])) rest
    else if c = ',' then (',' :: ws) ++ commaFixAux close (some []) rest
    else (',' :: ws) ++ c :: commaFixAux close none rest
  | none, c :: rest =>
    if c = ',' then commaFixAux close (some []) rest
    else c :: commaFixAux close none rest

def commaFix (close : Char) (s : Str) : Str := commaFixAux close none s

/-- `fix_json_string` (graph.py lines 180-189). -/
def fix_json_string (s : Str) : Str :=
  commaFix ']' (commaFix '\x7d' (quoteFix (extractBraces (strip (rmTicks (rmTicksJson s))))))

/-! ## graph.py — scout node (lines 410-461)

Subprocess execution is abstracted by an oracle.  `ExecOutcome.ok`
carries the captured streams and return code of a completed
`subprocess.run`, `timedOut` models `subprocess.TimeoutExpired`, and
`failed` models any other exception `e` (whose text becomes stderr). -/

inductive ExecOutcome where
  | ok (stdout stderr : Str) (rc : Int)
  | timedOut
  | failed (msg : Str)

/-- `ProbeResult` (the dicts appended to `exec_results`). -/
structure ProbeResult where
  cmd : Str
  stdout : Str
  stderr : Str
  rc : Int
deriving DecidableEq

/-- The rejection result of graph.py line 440: Python renders the
`Optional[str]` reason inside an f-string, so a `None` reason prints as
`"None"`. -/
def blockedResult (c : Str) : ProbeResult :=
  ⟨c, [],
   lit "BLOCKED: " ++ (match get_safety_reason c with
                       | some r => r
                       | none => lit "None"),
   126⟩

/-- One iteration of the probe loop (graph.py lines 437-452). -/
def runProbe (oracle : Str → ExecOutcome) (c : Str) : ProbeResult :=
  if is_safe_scout_cmd c then
    match oracle c with
    | .ok out err rc => ⟨c, out, err, rc⟩
    | .timedOut => ⟨c, [], lit "TIMEOUT", 124⟩
    | .failed msg => ⟨c, [], msg, 1⟩
  else blockedResult c

/-- The probe loop: result list and `failed_count`.  Safety-gate
rejections do not touch `failed_count` (the `continue` on line 441);
executed probes contribute on non-zero return code, timeout, or spawn
failure. -/
def scoutLoop (oracle : Str → ExecOutcome) : List Str → List ProbeResult × Nat
  | [] => ([], 0)
  | c :: rest =>
    let r := runProbe oracle c
    let inc : Nat :=
      if is_safe_scout_cmd c then
        match oracle c with
        | .ok _ _ rc => if rc ≠ 0 then 1 else 0
        | .timedOut => 1
        | .failed _ => 1
      else 0
    let p := scoutLoop oracle rest
    (r :: p.1, inc + p.2)

def scoutResults (oracle : Str → ExecOutcome) (cmds : List Str) : List ProbeResult :=
  (scoutLoop oracle cmds).1

def scoutFailedCount (oracle : Str → ExecOutcome) (cmds : List Str) : Nat :=
  (scoutLoop oracle cmds).2

/-- The comparison `failed_count > len(scout_cmds) * 0.7` (graph.py line
454).  Under IEEE doubles this coincides with the exact rational
comparison `10·failed > 7·n` for every `n ≤ 25` (checked exhaustively;
the planner caps probe lists at 20). -/
def warnExceeded (failed n : Nat) : Bool := decide (10 * failed > 7 * n)

def WARNING_MARKER : Str := lit "[WARNING] Most scout commands failed."

end ShellMaster

namespace ShellMaster

/-! ## domains.py — `extract_facts` (lines 382-470)

The `entities` and `query` parameters of the source function are never
read in its body and are omitted. -/

/-- Python `str.splitlines()` for the line breaks `\r\n`, `\r`, `\n`
(other Unicode line breaks do not occur in captured probe output here). -/
def splitlinesAux : Str → Str → List Str
  | [], acc => if acc = [] then [] else [acc.reverse]
  | '\r' :: '\n' :: rest, acc => acc.reverse :: splitlinesAux rest []
  | '\r' :: rest, acc => acc.reverse :: splitlinesAux rest []
  | '\n' :: rest, acc => acc.reverse :: splitlinesAux rest []
  | c :: rest, acc => splitlinesAux rest (c :: acc)

def splitlines (s : Str) : List Str := splitlinesAux s []

def joinSep (sep : Str) : List Str → Str
  | [] => []
  | [x] => x
  | x :: rest => x ++ sep ++ joinSep sep rest

/-- Decimal rendering of a natural number (for `f"{len(...)}"`). -/
def natToStr (n : Nat) : Str := Nat.toDigits 10 n

/-- `re.search(r"sport\s*=\s*:(\d+)", cmd)`: the digit run of the first
such occurrence. -/
def findSportPort : Str → Option Str
  | [] => none
  | c :: rest =>
    if (lit "sport").isPrefixOf (c :: rest) then
      match ((c :: rest).drop 5).dropWhile pySpace with
      | '=' :: t2 =>
        (match t2.dropWhile pySpace with
         | ':' :: t4 =>
           if t4.takeWhile Char.isDigit ≠ [] then some (t4.takeWhile Char.isDigit)
           else findSportPort rest
         | _ => findSportPort rest)
      | _ => findSportPort rest
    else findSportPort rest

/-- `re.search(r"users:\(\(\"([^\"]+)\",pid=(\d+)", out)`: process name
and pid digits of the first occurrence. -/
def findUsersProc : Str → Option (Str × Str)
  | [] => none
  | c :: rest =>
    if (lit "users:((\"").isPrefixOf (c :: rest) then
      let t := (c :: rest).drop 9
      let name := t.takeWhile fun d => d ≠ '"'
      let t2 := t.drop name.length
      if name ≠ [] ∧ (lit "\",pid=").isPrefixOf t2 then
        let ds := (t2.drop 6).takeWhile Char.isDigit
        if ds ≠ [] then some (name, ds) else findUsersProc rest
      else findUsersProc rest
    else findUsersProc rest

/-- `cmd.split()[-1]` (on the non-empty commands reaching it). -/
def lastWsToken (s : Str) : Str := (wsSplit s).getLastD []

/-- The raw-output entry of one probe result (domains.py lines 393-394). -/
def factRaw (r : ProbeResult) : List Str :=
  if strip r.stdout ≠ [] then
    [lit "$ " ++ r.cmd ++ lit "\n" ++ r.stdout.take 1000]
  else if strip r.stderr ≠ [] ∧ r.rc ≠ 0 then
    [lit "$ " ++ r.cmd ++ lit "\n[ERROR] " ++ r.stderr.take 500]
  else []

/-- The structured-fact entries of one probe result (domains.py lines
396-466); the dispatch conditions are sequential `if`s, so every
applicable branch contributes, in source order. -/
def factLines (r : ProbeResult) : List Str :=
  let cmd := r.cmd
  let out := r.stdout
  let rc := r.rc
  (if (lit "ls -").isPrefixOf cmd then
    (if rc = 0 ∧ strip out ≠ [] then
      (lit "FILE_EXISTS: " ++ lastWsToken cmd) ::
      ((splitlines out).filterMap fun line =>
        if line.head? = some '-' ∨ line.head? = some 'd' then
          let parts := wsSplit line
          if h : parts.length ≥ 9 then
            some (lit "FILE_INFO: " ++ parts.get ⟨8, by omega⟩ ++
              lit " (perm=" ++ parts.get ⟨0, by omega⟩ ++
              lit ", size=" ++ parts.get ⟨4, by omega⟩ ++
              lit ", owner=" ++ parts.get ⟨2, by omega⟩ ++ lit ")")
          else none
        else none)
    else if rc ≠ 0 then [lit "FILE_NOT_FOUND: " ++ lastWsToken cmd]
    else [])
  else []) ++
  (if (lit "find ").isPrefixOf cmd ∧ rc = 0 then
    let paths := ((splitlines out).filter fun l =>
      strip l ≠ [] ∧ hasSub (lit "__pycache__") l = false).map strip
    if paths ≠ [] then [lit "FOUND_FILES: " ++ joinSep (lit ", ") (paths.take 10)]
    else []
  else []) ++
  (if (lit "ps ").isPrefixOf cmd ∨ hasSub (lit "pgrep") cmd then
    if rc = 0 ∧ strip out ≠ [] then
      let lines := (splitlines out).filter fun l => strip l ≠ []
      if lines ≠ [] then
        (lit "PROCESS_FOUND: " ++ natToStr lines.length ++ lit " matches") ::
        (lines.take 5).map fun line => lit "  PROC: " ++ line.take 200
      else []
    else []
  else []) ++
  (if hasSub (lit "top") cmd ∨ (lit "free").isPrefixOf cmd then
    if rc = 0 ∧ strip out ≠ [] then [lit "RESOURCE_INFO: " ++ out.take 300] else []
  else []) ++
  (if (lit "ss ").isPrefixOf cmd ∧ hasSub (lit "sport") cmd then
    match findSportPort cmd with
    | some p =>
      if strip out ≠ [] then
        (lit "PORT_" ++ p ++ lit "_LISTENING: yes") ::
        (match findUsersProc out with
         | some pr =>
           [lit "PORT_" ++ p ++ lit "_PROCESS: " ++ pr.1 ++
            lit " (PID=" ++ pr.2 ++ lit ")"]
         | none => [])
      else [lit "PORT_" ++ p ++ lit "_LISTENING: no"]
    | none => []
  else []) ++
  (if hasSub (lit "systemctl status") cmd then
    if hasSub (lit "Active: active (running)") out then [lit "SERVICE_STATUS: running"]
    else if hasSub (lit "Active: inactive") out then [lit "SERVICE_STATUS: inactive"]
    else if hasSub (lit "Active: failed") out then [lit "SERVICE_STATUS: failed"]
    else []
  else []) ++
  (if hasSub (lit "journalctl") cmd ∧ rc = 0 then
    let errLines := (splitlines out).filter fun l =>
      hasSub (lit "error") (lowerStr l) ∨ hasSub (lit "fail") (lowerStr l)
    match errLines.getLast? with
    | some last =>
      [lit "LOG_ERRORS: " ++ natToStr errLines.length ++ lit " error entries found",
       lit "  LAST_ERROR: " ++ last.take 200]
    | none => []
  else []) ++
  (if hasSub (lit "docker ps") cmd ∧ rc = 0 then
    let lines := (splitlines out).filter fun l =>
      strip l ≠ [] ∧ (lit "CONTAINER").isPrefixOf l = false
    if lines ≠ [] then
      (lit "DOCKER_CONTAINERS: " ++ natToStr lines.length ++ lit " running") ::
      (lines.take 5).map fun line => lit "  CONTAINER: " ++ line.take 150
    else [lit "DOCKER_CONTAINERS: none running"]
  else []) ++
  (if (lit "dpkg -l").isPrefixOf cmd ∧ rc = 0 ∧ hasSub (lit "ii") out then
    [lit "PACKAGE_INSTALLED: " ++ lastWsToken cmd ++ lit " (dpkg)"]
  else []) ++
  (if (lit "which").isPrefixOf cmd ∨ (lit "command -v").isPrefixOf cmd then
    if rc = 0 ∧ strip out ≠ [] then [lit "TOOL_FOUND: " ++ strip out]
    else if rc ≠ 0 then [lit "TOOL_NOT_FOUND: " ++ lastWsToken cmd]
    else []
  else []) ++
  (if (lit "uname").isPrefixOf cmd ∧ rc = 0 then
    [lit "SYSTEM_INFO: " ++ strip out] else []) ++
  (if (lit "df").isPrefixOf cmd ∧ rc = 0 then
    [lit "DISK_USAGE:\n" ++ out.take 500] else []) ++
  (if (lit "lsblk").isPrefixOf cmd ∧ rc = 0 then
    [lit "BLOCK_DEVICES:\n" ++ out.take 500] else [])

/-- `extract_facts` (domains.py lines 382-470). -/
def extract_facts (results : List ProbeResult) : Str :=
  let facts := results.flatMap factLines
  let raws := results.flatMap factRaw
  let facts_str := if facts = [] then lit "No structured facts extracted."
                   else joinSep (lit "\n") facts
  let raw_str := if raws = [] then lit "No raw output."
                 else joinSep (lit "\n---\n") (raws.take 15)
  lit "[EXTRACTED FACTS]\n" ++ facts_str ++ lit "\n\n[RAW SCOUT OUTPUT]\n" ++ raw_str

/-- The facts string assembled by `scout_node` (graph.py lines 453-456):
the warning marker is prepended exactly when `failed_count` exceeds the
70% threshold. -/
def scout_node_facts (oracle : Str → ExecOutcome) (cmds : List Str) : Str :=
  let facts := extract_facts (scoutResults oracle cmds)
  if warnExceeded (scoutFailedCount oracle cmds) cmds.length then
    WARNING_MARKER ++ lit "\n\n" ++ facts
  else facts

end ShellMaster

namespace ShellMaster

/-! ## graph.py — generate node (lines 463-504) -/

/-- `re.sub(r"^```bash\s*", "", s)`: remove a leading ` ```bash ` and the
whitespace after it (anchored, at most one substitution). -/
def stripFenceBash (s : Str) : Str :=
  if (lit "\x60\x60\x60bash").isPrefixOf s then (s.drop 7).dropWhile pySpace else s

/-- `re.sub(r"^```\s*", "", s)`. -/
def stripFenceOpen (s : Str) : Str :=
  if (lit "\x60\x60\x60").isPrefixOf s then (s.drop 3).dropWhile pySpace else s

/-- `re.sub(r"\s*```$", "", s)`: remove a trailing ` ``` ` together with
the whitespace run before it (a match of `\s*```$` must end at the end of
the string, so one exists iff the string ends with ` ``` `). -/
def stripFenceClose (s : Str) : Str :=
  if (lit "\x60\x60\x60").isPrefixOf (s.reverse.take 3) then
    rstrip (s.take (s.length - 3))
  else s

/-- The fence-stripping prefix of `generate_node` (graph.py lines
486-490): strip, remove fences, strip again. -/
def fenceStripped (resp : Str) : Str :=
  strip (stripFenceClose (stripFenceOpen (stripFenceBash (strip resp))))

/-- The multi-line reduction of `generate_node` (graph.py lines 491-493):
applied only when the fence-stripped text contains a newline and does not
start with `echo`; keeps the first line that is non-blank and does not
start (un-stripped) with `#`, when one exists. -/
def generate_command (resp : Str) : Str :=
  let command := fenceStripped resp
  if command.contains '\n' && !(lit "echo").isPrefixOf command then
    match ((splitChar '\n' command).filter fun l =>
      strip l ≠ [] ∧ l.head? ≠ some '#').map strip with
    | first :: _ => first
    | [] => command
  else command

/-- `generate_node` leaves an already-set command untouched (graph.py
line 467); otherwise it stores the reduction of the LLM response. -/
def generate_node (existing : Option Str) (resp : Str) : Str :=
  match existing with
  | some cmd => cmd
  | none => generate_command resp

end ShellMaster

namespace ShellMaster

/-! ## General lemmas shared by several claims -/

theorem hasRedirFile_of_devnull (s : Str) :
    hasSub (lit "> /dev/null") s = true → hasRedirFile s = true := by
  induction s with
  | nil => intro h; simp [hasSub, lit, List.isPrefixOf] at h
  | cons c rest ih =>
    intro h
    simp only [hasSub, Bool.or_eq_true] at h
    rcases h with h | h
    · have hc : c = '>' ∧ rest.head? = some ' ' := by
        cases rest with
        | nil => simp [lit, List.isPrefixOf] at h
        | cons d rest2 =>
          simp only [lit, List.isPrefixOf, Bool.and_eq_true, beq_iff_eq] at h
          exact ⟨h.1.symm, by simp [h.2.1.symm]⟩
      simp only [hasRedirFile, hc.1, hc.2, Bool.or_eq_true]
      left
      decide
    · simp only [hasRedirFile, Bool.or_eq_true]
      right
      exact ih h

theorem hasDangerousPattern_of_redirFile (s : Str) (h : hasRedirFile s = true) :
    hasDangerousPattern s = true := by
  simp only [hasDangerousPattern, DANGEROUS_PATTERNS, List.any_cons, List.any_nil,
    Bool.or_eq_true]
  tauto

theorem scoutResults_get? (o : Str → ExecOutcome) (cmds : List Str) (i : Nat) :
    (scoutResults o cmds).get? i = (cmds.get? i).map (runProbe o) := by
  induction cmds generalizing i with
  | nil => simp [scoutResults, scoutLoop]
  | cons c rest ih =>
    cases i with
    | zero => simp [scoutResults, scoutLoop]
    | succ j => simpa [scoutResults, scoutLoop] using ih j

/-! ## C1 -/

/-- C1: the claim "every probe returned by the planner passes the safety
gate" fails on the code: for domains `["file"]` with entity
`filename = "a.txt"` at MODERATE complexity, the planner emits the probe
`find /home -maxdepth 4 -name a.txt -type f 2>/dev/null || true`, which
`is_safe_scout_cmd` rejects (Tier-1 `>` redirection and `||`). -/
theorem c1_planner_probe_rejected_by_gate :
    (lit "find /home -maxdepth 4 -name a.txt -type f 2>/dev/null || true") ∈
      get_scout_commands [lit "file"] [(lit "filename", lit "a.txt")]
        (lit "find a.txt") MODERATE ∧
    is_safe_scout_cmd
      (lit "find /home -maxdepth 4 -name a.txt -type f 2>/dev/null || true") = false := by
  constructor
  · decide
  · decide

/-! ## C3 -/

/-- C3: every fragment whose stripped form matches a Tier-1 dangerous
pattern is rejected by the gate; in particular any fragment containing
`> /dev/null` (after stripping) is rejected. -/
theorem c3_tier1_pattern_rejected (cmd : Str)
    (h : hasDangerousPattern (strip cmd) = true ∨
         hasSub (lit "> /dev/null") (strip cmd) = true) :
    is_safe_scout_cmd cmd = false := by
  have hp : hasDangerousPattern (strip cmd) = true := by
    rcases h with h | h
    · exact h
    · exact hasDangerousPattern_of_redirFile _ (hasRedirFile_of_devnull _ h)
  by_cases hc : strip cmd = []
  · simp [is_safe_scout_cmd, hc]
  · simp [is_safe_scout_cmd, hc, hp]

/-- C3 witness: `cat /etc/hosts > /dev/null` is rejected. -/
theorem c3_witness :
    hasSub (lit "> /dev/null") (strip (lit "cat /etc/hosts > /dev/null")) = true ∧
    is_safe_scout_cmd (lit "cat /etc/hosts > /dev/null") = false :=
  ⟨by decide, c3_tier1_pattern_rejected (lit "cat /etc/hosts > /dev/null")
    (Or.inr (by decide))⟩

end ShellMaster

namespace ShellMaster

/-! ## C2 -/

/-- C2: in the scout executor, every probe that fails the safety gate
yields a ProbeResult with `rc = 126` whose stderr carries the rejection
reason, and no subprocess is spawned for it — the result at that position
is `blockedResult`, which does not consult the execution oracle, and is
therefore identical under any two oracles.  In particular the injected
probe `rm -rf /tmp/x` is blocked under every oracle with a reason
mentioning `rm`. -/
theorem c2_gate_rejection_rc126 (o o' : Str → ExecOutcome) (cmds : List Str)
    (i : Nat) (c : Str) (hc : cmds.get? i = some c)
    (hblocked : is_safe_scout_cmd c = false) :
    ((scoutResults o cmds).get? i = some (blockedResult c) ∧
     (blockedResult c).rc = 126 ∧
     (scoutResults o cmds).get? i = (scoutResults o' cmds).get? i) ∧
    (runProbe o (lit "rm -rf /tmp/x") = blockedResult (lit "rm -rf /tmp/x") ∧
     (blockedResult (lit "rm -rf /tmp/x")).rc = 126 ∧
     hasSub (lit "rm") (blockedResult (lit "rm -rf /tmp/x")).stderr = true) := by
  have hrun : runProbe o c = blockedResult c := by
    simp [runProbe, hblocked]
  have hrun' : runProbe o' c = blockedResult c := by
    simp [runProbe, hblocked]
  refine ⟨⟨?_, rfl, ?_⟩, ?_, rfl, by decide⟩
  · rw [scoutResults_get?, hc]
    simp [hrun]
  · rw [scoutResults_get?, hc, scoutResults_get?, hc]
    simp [hrun, hrun']
  · have : is_safe_scout_cmd (lit "rm -rf /tmp/x") = false := by decide
    simp [runProbe, this]

/-- C2 witness: the singleton probe list `["rm -rf /tmp/x"]` under a
concrete oracle. -/
theorem c2_witness :
    ([lit "rm -rf /tmp/x"].get? 0 = some (lit "rm -rf /tmp/x")) ∧
    is_safe_scout_cmd (lit "rm -rf /tmp/x") = false ∧
    ((scoutResults (fun _ => ExecOutcome.ok [] [] 0) [lit "rm -rf /tmp/x"]).get? 0 =
      some (blockedResult (lit "rm -rf /tmp/x"))) :=
  ⟨rfl, by decide,
    ((c2_gate_rejection_rc126 (fun _ => ExecOutcome.ok [] [] 0)
      (fun _ => ExecOutcome.ok [] [] 0) [lit "rm -rf /tmp/x"] 0
      (lit "rm -rf /tmp/x") rfl (by decide)).1).1⟩

/-! ## C6 -/

/-- C6 counterexample: the literal query `磁盘使用情况` does not match the
trivial lookup table (its keys include `磁盘使用` but not `磁盘使用情况`),
and the heuristic classifier does not rate it TRIVIAL either, refuting the
claim that this query hits the trivial fast path with command `df -h`. -/
theorem c6_counterexample :
    trivialLookup (lit "磁盘使用情况") = none ∧
    assess_complexity (lit "磁盘使用情况") ⟨[lit "file"], [], none⟩ = MODERATE := by
  constructor
  · decide
  · decide

/-- On a trivial-table hit, `refine_node` returns the fast-path record. -/
theorem refine_node_fast_path (q cmd : Str) (h : trivialLookup q = some cmd)
    (parsed : Intent) (regexEnts : Entities) :
    refine_node q parsed regexEnts =
      ⟨⟨[lit "file"], [], none⟩, (TRIVIAL : Int), some cmd⟩ := by
  unfold refine_node
  rw [h]

/-- C6 (amended): the query `pwd` hits the trivial fast path: the stored
complexity is TRIVIAL, the stored command is `pwd`, the planner emits no
probes at TRIVIAL complexity, and the generate node keeps the stored
command.  The query `磁盘使用` (a key actually present in the table) maps
to `df -h` the same way, while `磁盘使用情况` is not in the table. -/
theorem c6_amended (parsed : Intent) (regexEnts : Entities)
    (ds : List Str) (es : Entities) (q resp : Str) :
    (refine_node (lit "pwd") parsed regexEnts).command = some (lit "pwd") ∧
    (refine_node (lit "pwd") parsed regexEnts).complexity = (TRIVIAL : Int) ∧
    get_scout_commands ds es q TRIVIAL = [] ∧
    generate_node (some (lit "pwd")) resp = lit "pwd" ∧
    (refine_node (lit "磁盘使用") parsed regexEnts).command = some (lit "df -h") ∧
    (refine_node (lit "磁盘使用") parsed regexEnts).complexity = (TRIVIAL : Int) ∧
    trivialLookup (lit "磁盘使用情况") = none := by
  rw [refine_node_fast_path (lit "pwd") (lit "pwd") (by decide),
    refine_node_fast_path (lit "磁盘使用") (lit "df -h") (by decide)]
  exact ⟨rfl, rfl, rfl, rfl, rfl, rfl, by decide⟩

end ShellMaster

namespace ShellMaster

/-! ## C7 -/

/-- An executed probe counts as failed for `failed_count`: non-zero
return code, timeout, or spawn failure. -/
def execFailed : ExecOutcome → Bool
  | .ok _ _ rc => decide (rc ≠ 0)
  | .timedOut => true
  | .failed _ => true

theorem scoutFailedCount_spec (o : Str → ExecOutcome) (cmds : List Str) :
    scoutFailedCount o cmds =
      (cmds.filter fun c => is_safe_scout_cmd c && execFailed (o c)).length := by
  induction cmds with
  | nil => rfl
  | cons c rest ih =>
    have hinc :
        (if is_safe_scout_cmd c then
          match o c with
          | ExecOutcome.ok _ _ rc => if rc ≠ 0 then 1 else 0
          | ExecOutcome.timedOut => 1
          | ExecOutcome.failed _ => 1
        else 0) = (if is_safe_scout_cmd c && execFailed (o c) then 1 else 0) := by
      by_cases hs : is_safe_scout_cmd c
      · cases ho : o c with
        | ok out err rc => by_cases hrc : rc = 0 <;> simp [hs, execFailed, hrc]
        | timedOut => simp [hs, execFailed]
        | failed m => simp [hs, execFailed]
      · simp [hs]
    have hloop : scoutFailedCount o (c :: rest) =
        (if is_safe_scout_cmd c && execFailed (o c) then 1 else 0) +
          scoutFailedCount o rest := by
      simp only [scoutFailedCount, scoutLoop, ← hinc]
    rw [hloop, ih, List.filter_cons]
    by_cases hp : is_safe_scout_cmd c && execFailed (o c)
    · simp [hp, Nat.add_comm]
    · simp [hp]

theorem isPrefixOf_append_self (l t : Str) : l.isPrefixOf (l ++ t) = true := by
  induction l with
  | nil => simp [List.isPrefixOf]
  | cons c rest ih => simp [List.isPrefixOf, ih]

theorem marker_not_prefix_of_extract (rs : List ProbeResult) :
    WARNING_MARKER.isPrefixOf (extract_facts rs) = false := by
  have h1 : WARNING_MARKER =
      '[' :: 'W' :: lit "ARNING] Most scout commands failed." := by decide
  unfold extract_facts
  rw [h1]
  rw [show (lit "[EXTRACTED FACTS]\n") = '[' :: 'E' :: lit "XTRACTED FACTS]\n" from by decide]
  simp only [List.cons_append, List.isPrefixOf, List.append_assoc]
  rw [show ('W' == 'E') = false from by decide]
  simp

/-- C7 counterexample: a probe list whose single probe is rejected by the
gate — every recorded result has `rc = 126 ≠ 0` (a 100% failure fraction
by the claim's counting), yet the facts string carries no warning marker,
because `failed_count` is not incremented for safety-gate rejections. -/
theorem c7_counterexample :
    scoutResults (fun _ => ExecOutcome.ok [] [] 0) [lit "rm -rf /"] =
      [blockedResult (lit "rm -rf /")] ∧
    (blockedResult (lit "rm -rf /")).rc = 126 ∧
    WARNING_MARKER.isPrefixOf
      (scout_node_facts (fun _ => ExecOutcome.ok [] [] 0) [lit "rm -rf /"]) = false := by
  refine ⟨by decide, by decide, by decide⟩

/-- C7 (amended): the facts string is prefixed with the warning marker iff
the number of probes that were executed (passed the gate) and failed
(non-zero rc, timeout, or spawn error) exceeds 70% of the total probe
count; safety-gate rejections (rc = 126) count in the denominator but are
not counted as failures. -/
theorem c7_amended (o : Str → ExecOutcome) (cmds : List Str) :
    WARNING_MARKER.isPrefixOf (scout_node_facts o cmds) =
      warnExceeded
        ((cmds.filter fun c => is_safe_scout_cmd c && execFailed (o c)).length)
        cmds.length := by
  unfold scout_node_facts
  rw [scoutFailedCount_spec]
  by_cases hw : warnExceeded
      ((cmds.filter fun c => is_safe_scout_cmd c && execFailed (o c)).length)
      cmds.length
  · simp only [hw, if_true]
    rw [show WARNING_MARKER ++ lit "\n\n" ++ extract_facts (scoutResults o cmds) =
      WARNING_MARKER ++ (lit "\n\n" ++ extract_facts (scoutResults o cmds)) from by
        simp [List.append_assoc]]
    exact isPrefixOf_append_self _ _
  · simp only [Bool.not_eq_true] at hw
    simp only [hw, if_false]
    exact marker_not_prefix_of_extract _

end ShellMaster

namespace ShellMaster

/-! ## C8 -/

theorem containsChar_iff (l : Str) (c : Char) : l.contains c ↔ c ∈ l :=
  List.elem_iff

theorem lstrip_suffix (l : Str) : List.IsSuffix (lstrip l) l :=
  List.dropWhile_suffix pySpace

theorem rstrip_front (l : Str) : List.IsPrefix (rstrip l) l := by
  have h := List.dropWhile_suffix (l := l.reverse) pySpace
  rcases h with ⟨t, ht⟩
  refine ⟨t.reverse, ?_⟩
  have := congrArg List.reverse ht
  simpa [rstrip, List.reverse_append] using this

theorem strip_sublist (l : Str) : List.Sublist (strip l) l :=
  List.Sublist.trans (rstrip_front (lstrip l)).sublist (lstrip_suffix l).sublist

theorem notMem_strip (l : Str) (c : Char) (h : c ∉ l) : c ∉ strip l :=
  fun hc => h (List.Sublist.mem hc (strip_sublist l))

theorem splitChar_not_mem (sep : Char) (s : Str) :
    ∀ acc, sep ∉ acc → ∀ p ∈ splitChAux sep s acc, sep ∉ p := by
  induction s with
  | nil =>
    intro acc hacc p hp
    simp only [splitChAux, List.mem_singleton] at hp
    subst hp
    simpa using hacc
  | cons c rest ih =>
    intro acc hacc p hp
    by_cases hc : c = sep
    · simp only [splitChAux, hc, if_true] at hp
      rcases List.mem_cons.mp hp with h | h
      · subst h; simpa using hacc
      · exact ih [] (by simp) p h
    · simp only [splitChAux, hc, if_false] at hp
      refine ih (c :: acc) ?_ p hp
      simp only [List.mem_cons, not_or]
      exact ⟨fun h => hc h.symm, hacc⟩

/-- C8 counterexample: for the LLM response `echo a\nb` (non-empty, two
lines), the stored command is the whole multi-line response, refuting the
claim that the stored command is always a single line. -/
theorem c8_counterexample :
    generate_command (lit "echo a\nb") = lit "echo a\nb" ∧
    (generate_command (lit "echo a\nb")).contains '\n' = true := by
  exact ⟨by decide, by decide⟩

/-- C8 (amended): after fence stripping, a single-line response is stored
as-is; a multi-line response that does not start with `echo` and has at
least one line that is non-blank and does not begin with `#` is reduced
to the first such line (whitespace-stripped), which is a single line; but
a multi-line response starting with `echo` (and likewise one whose lines
are all blank or comments) is stored unchanged, multi-line. -/
theorem c8_amended (resp : Str) :
    ((fenceStripped resp).contains '\n' = false →
      generate_command resp = fenceStripped resp) ∧
    ((fenceStripped resp).contains '\n' = true →
      (lit "echo").isPrefixOf (fenceStripped resp) = true →
      generate_command resp = fenceStripped resp) ∧
    (∀ first rest,
      (fenceStripped resp).contains '\n' = true →
      (lit "echo").isPrefixOf (fenceStripped resp) = false →
      ((splitChar '\n' (fenceStripped resp)).filter fun l =>
          strip l ≠ [] ∧ l.head? ≠ some '#').map strip = first :: rest →
      generate_command resp = first ∧ (first).contains '\n' = false) := by
  refine ⟨?_, ?_, ?_⟩
  · intro h
    have hcond : ((fenceStripped resp).contains '\n' &&
        !(lit "echo").isPrefixOf (fenceStripped resp)) = false := by
      rw [h]; rfl
    unfold generate_command
    simp only [hcond, Bool.false_eq_true, if_false]
  · intro h he
    have hcond : ((fenceStripped resp).contains '\n' &&
        !(lit "echo").isPrefixOf (fenceStripped resp)) = false := by
      rw [h, he]; rfl
    unfold generate_command
    simp only [hcond, Bool.false_eq_true, if_false]
  · intro first rest h he hlines
    have hgen : generate_command resp = first := by
      have hcond : ((fenceStripped resp).contains '\n' &&
          !(lit "echo").isPrefixOf (fenceStripped resp)) = true := by
        rw [h, he]; rfl
      unfold generate_command
      simp only [hcond, if_true, hlines]
    refine ⟨hgen, ?_⟩
    have hmem : first ∈ ((splitChar '\n' (fenceStripped resp)).filter fun l =>
        strip l ≠ [] ∧ l.head? ≠ some '#').map strip := by
      rw [hlines]; exact List.mem_cons_self _ _
    rcases List.mem_map.mp hmem with ⟨l, hl, hstrip⟩
    have hl2 : l ∈ splitChar '\n' (fenceStripped resp) := List.mem_of_mem_filter hl
    have hnl : '\n' ∉ l :=
      splitChar_not_mem '\n' (fenceStripped resp) [] (by simp) l hl2
    have : '\n' ∉ first := by
      rw [← hstrip]; exact notMem_strip l '\n' hnl
    simp only [Bool.eq_false_iff]
    intro hcontra
    exact this ((containsChar_iff first '\n').mp hcontra)

end ShellMaster

namespace ShellMaster

/-- C8 witness: the two-line response `ls\npwd` reduces to its first
line. -/
theorem c8_witness :
    generate_command (lit "ls\npwd") = lit "ls" ∧
    (lit "ls").contains '\n' = false :=
  (c8_amended (lit "ls\npwd")).2.2 (lit "ls") [lit "pwd"]
    (by decide) (by decide) (by decide)

end ShellMaster

namespace ShellMaster

/-! ## C5 -/

/-- C5: on the non-trivial path (the only path where an LLM-provided
intent exists), the complexity stored by `refine_node` equals the maximum
of the LLM-declared complexity (default 2) and the heuristic value
`assess_complexity` on the validated intent, and is therefore never below
the heuristic value. -/
theorem c5_complexity_is_max (query : Str) (parsed : Intent)
    (regexEnts : Entities) (h : trivialLookup query = none) :
    (refine_node query parsed regexEnts).complexity =
      max (parsed.complexity.getD 2)
        ((assess_complexity query (validatedIntent parsed regexEnts) : Nat) : Int) ∧
    ((assess_complexity query (validatedIntent parsed regexEnts) : Nat) : Int) ≤
      (refine_node query parsed regexEnts).complexity := by
  unfold refine_node
  rw [h]
  exact ⟨rfl, le_max_right _ _⟩

/-- C5 witness: a concrete non-trivial query with an LLM-declared
complexity of 3. -/
theorem c5_witness :
    trivialLookup (lit "list files") = none ∧
    ((refine_node (lit "list files")
        ⟨[lit "file"], [], some 3⟩ []).complexity =
      max ((some (3 : Int)).getD 2)
        ((assess_complexity (lit "list files")
          (validatedIntent ⟨[lit "file"], [], some 3⟩ []) : Nat) : Int) ∧
     ((assess_complexity (lit "list files")
          (validatedIntent ⟨[lit "file"], [], some 3⟩ []) : Nat) : Int) ≤
      (refine_node (lit "list files")
        ⟨[lit "file"], [], some 3⟩ []).complexity) :=
  ⟨by decide,
   c5_complexity_is_max (lit "list files") ⟨[lit "file"], [], some 3⟩ [] (by decide)⟩

end ShellMaster

namespace ShellMaster

/-! ## C10 -/

/-- The combo-only-first rule of `is_safe_scout_cmd` (safety.py lines
378-382), phrased on the split pieces: the piece at index 0, when
non-empty after stripping, must not have a combo-only base command. -/
def comboHeadRejected : List Str → Bool
  | [] => false
  | p :: _ =>
    strip p ≠ [] && COMBO_ONLY_COMMANDS.contains (get_base_command (strip p))

def subOkB (p : Str) : Bool := (strip p).isEmpty || is_allowed_subcmd (strip p)

theorem checkSubs_succ (parts : List Str) :
    ∀ i, checkSubs (i + 1) parts = parts.all subOkB := by
  induction parts with
  | nil => intro i; rfl
  | cons p rest ih =>
    intro i
    simp only [checkSubs, List.all_cons, subOkB]
    by_cases hs : strip p = []
    · simp [hs, ih]
    · have hne : (strip p).isEmpty = false := by
        simp [List.isEmpty_iff, hs]
      simp only [hs, if_false, hne, Bool.false_or]
      have : (COMBO_ONLY_COMMANDS.contains (get_base_command (strip p)) &&
          decide (i + 1 = 0)) = false := by
        simp
      rw [if_neg (by simp)]
      by_cases ha : is_allowed_subcmd (strip p)
      · simp [ha, ih]
      · simp [ha]

theorem checkSubs_zero (parts : List Str) :
    checkSubs 0 parts = (!comboHeadRejected parts && parts.all subOkB) := by
  cases parts with
  | nil => rfl
  | cons p rest =>
    simp only [checkSubs, comboHeadRejected, List.all_cons, subOkB]
    by_cases hs : strip p = []
    · simp [hs, checkSubs_succ, List.isEmpty_iff]
    · have hne : (strip p).isEmpty = false := by simp [List.isEmpty_iff, hs]
      by_cases hcombo : COMBO_ONLY_COMMANDS.contains (get_base_command (strip p))
      · simp [hs, hne, hcombo, checkSubs_succ]
      · by_cases ha : is_allowed_subcmd (strip p)
        · simp [hs, hne, hcombo, ha, checkSubs_succ]
        · simp [hs, hne, hcombo, ha]

theorem reasonSubs_none_iff (parts : List Str) :
    reasonSubs parts = none ↔ parts.all subOkB = true := by
  induction parts with
  | nil => simp [reasonSubs]
  | cons p rest ih =>
    simp only [reasonSubs, List.all_cons, subOkB]
    by_cases hs : strip p = []
    · have hne : (strip p).isEmpty = true := by simp [List.isEmpty_iff, hs]
      simp [hs, hne, ih]
    · have hne : (strip p).isEmpty = false := by simp [List.isEmpty_iff, hs]
      by_cases ha : is_allowed_subcmd (strip p)
      · simp [hs, ha, hne, ih]
      · simp [hs, ha, hne]

theorem find?_none_of_any_false {α : Type} (l : List α) (p : α → Bool)
    (h : l.any p = false) : l.find? p = none := by
  rw [List.find?_eq_none]
  intro x hx
  have := List.any_eq_false.mp h x hx
  simpa using this

theorem any_true_of_find?_none {α : Type} (l : List α) (p : α → Bool)
    (h : l.find? p = none) : l.any p = false := by
  rw [List.any_eq_false]
  intro x hx
  have := List.find?_eq_none.mp h x hx
  simpa using this

/-- C10 counterexample: for the fragment `xargs ls` the gate answers
unsafe (combo-only command in first position) while the reason function
reports no reason, refuting the claimed equivalence. -/
theorem c10_counterexample :
    is_safe_scout_cmd (lit "xargs ls") = false ∧
    get_safety_reason (lit "xargs ls") = none := by
  exact ⟨by decide, by decide⟩

/-- C10 (amended): the safety verdict and the rejection-reason function
agree except on the combo-only-first rule, which only
`is_safe_scout_cmd` implements: a fragment is safe iff the reason
function reports no reason AND the first pipeline piece is not a
combo-only command. -/
theorem c10_amended (cmd : Str) :
    is_safe_scout_cmd cmd = true ↔
      (get_safety_reason cmd = none ∧
       comboHeadRejected (splitPipeline (strip cmd)) = false) := by
  unfold is_safe_scout_cmd get_safety_reason
  by_cases h0 : strip cmd = []
  · simp [h0]
  · simp only [h0, if_false]
    by_cases hp : hasDangerousPattern (strip cmd)
    · have hp2 : (DANGEROUS_PATTERNS.any fun pr => pr.1 (strip cmd)) = true := hp
      rcases hfind : DANGEROUS_PATTERNS.find? (fun pr => pr.1 (strip cmd)) with _ | pr
      · exfalso
        have := any_true_of_find?_none _ _ hfind
        rw [this] at hp2
        exact Bool.false_ne_true hp2
      · simp [hp, hfind]
    · have hp1 : hasDangerousPattern (strip cmd) = false := by simpa using hp
      have hp2 : (DANGEROUS_PATTERNS.any fun pr => pr.1 (strip cmd)) = false := hp1
      have hfind : DANGEROUS_PATTERNS.find? (fun pr => pr.1 (strip cmd)) = none :=
        find?_none_of_any_false _ _ hp2
      simp only [hp, if_false, hfind]
      by_cases hd : hasDangerousCommand (strip cmd)
      · have hd2 : (DANGEROUS_COMMANDS.any
            fun d => dangerousHit d (lowerStr (strip cmd))) = true := hd
        rcases hfind2 : DANGEROUS_COMMANDS.find?
            (fun d => dangerousHit d (lowerStr (strip cmd))) with _ | d
        · exfalso
          have := any_true_of_find?_none _ _ hfind2
          rw [this] at hd2
          exact Bool.false_ne_true hd2
        · simp [hd, hfind2]
      · have hd1 : hasDangerousCommand (strip cmd) = false := by simpa using hd
        have hd2 : (DANGEROUS_COMMANDS.any
            fun d => dangerousHit d (lowerStr (strip cmd))) = false := hd1
        have hfind2 : DANGEROUS_COMMANDS.find?
            (fun d => dangerousHit d (lowerStr (strip cmd))) = none :=
          find?_none_of_any_false _ _ hd2
        simp only [hd, if_false, hfind2]
        rw [checkSubs_zero]
        constructor
        · intro h
          have h1 := (Bool.and_eq_true _ _).mp h
          exact ⟨(reasonSubs_none_iff _).mpr h1.2, by
            have := h1.1
            simpa using this⟩
        · rintro ⟨h1, h2⟩
          have := (reasonSubs_none_iff _).mp h1
          simp [h2, this]

end ShellMaster

namespace ShellMaster

/-! ## String lemmas for the C4 analysis -/

theorem dropWhile_dropWhile (p : Char → Bool) (l : Str) :
    (l.dropWhile p).dropWhile p = l.dropWhile p := by
  cases h : l.dropWhile p with
  | nil => rfl
  | cons c rest =>
    have hc : p c = false := by
      have := List.head?_dropWhile_not p l
      rw [h] at this
      simpa using this
    simp [List.dropWhile_cons_of_neg, hc]

theorem rstrip_append (a b : Str) :
    rstrip (a ++ b) = if rstrip b = [] then rstrip a else a ++ rstrip b := by
  unfold rstrip
  rw [List.reverse_append, List.dropWhile_append]
  by_cases h : (b.reverse.dropWhile pySpace).isEmpty
  · have hb : (b.reverse.dropWhile pySpace).reverse = [] := by
      simp [List.isEmpty_iff.mp h]
    rw [if_pos hb]
    simp [h]
  · have hb : (b.reverse.dropWhile pySpace).reverse ≠ [] := by
      simp only [List.isEmpty_iff] at h
      simpa using h
    rw [if_neg hb]
    simp [h, List.reverse_append]

theorem lstrip_idem (l : Str) : lstrip (lstrip l) = lstrip l :=
  dropWhile_dropWhile pySpace l

theorem rstrip_idem (l : Str) : rstrip (rstrip l) = rstrip l := by
  unfold rstrip
  rw [List.reverse_reverse, dropWhile_dropWhile]

theorem lstrip_of_rstrip_lstrip (l : Str) :
    lstrip (rstrip (lstrip l)) = rstrip (lstrip l) := by
  cases h : lstrip l with
  | nil => simp [rstrip, lstrip]
  | cons c rest =>
    have hc : pySpace c = false := by
      have := List.head?_dropWhile_not pySpace l
      rw [show l.dropWhile pySpace = c :: rest from h] at this
      simpa using this
    cases h2 : rstrip (c :: rest) with
    | nil => simp [lstrip]
    | cons d ds =>
      have hpre : List.IsPrefix (rstrip (c :: rest)) (c :: rest) := rstrip_front _
      rw [h2] at hpre
      rcases hpre with ⟨t, ht⟩
      have hd : d = c := by
        have := congrArg (List.head?) ht
        simpa using this
      subst hd
      show List.dropWhile pySpace (d :: ds) = d :: ds
      exact List.dropWhile_cons_of_neg (by simp [hc])

theorem strip_idem (l : Str) : strip (strip l) = strip l := by
  unfold strip
  rw [lstrip_of_rstrip_lstrip, rstrip_idem]

theorem strip_cons_append (c : Char) (hc : pySpace c = false) (w t : Str) :
    strip ((c :: w) ++ t) =
      if rstrip t = [] then rstrip (c :: w) else (c :: w) ++ rstrip t := by
  unfold strip lstrip
  rw [List.cons_append, List.dropWhile_cons_of_neg (by simp [hc]),
    ← List.cons_append, rstrip_append]

theorem isPrefixOf_cons_cons (a b : Char) (as bs : Str) :
    (a :: as).isPrefixOf (b :: bs) = ((a == b) && as.isPrefixOf bs) := rfl

theorem isPrefixOf_false_of_head_ne (a b : Char) (as bs : Str) (h : a ≠ b) :
    (a :: as).isPrefixOf (b :: bs) = false := by
  rw [isPrefixOf_cons_cons, show (a == b) = false from by simpa using h,
    Bool.false_and]

/-- First whitespace-delimited word of a string (`s.split()[0]` when a
word exists). -/
def fw (s : Str) : Str := (s.dropWhile pySpace).takeWhile fun c => !pySpace c

/-- The first word of `p` is delimited inside `p` itself (a whitespace
character follows it), so every extension of `p` has the same first word. -/
def wordComplete (p : Str) : Bool :=
  !((p.dropWhile pySpace).dropWhile fun c => !pySpace c).isEmpty

theorem fw_of_isPrefixOf (p sub : Str) (hpre : p.isPrefixOf sub = true)
    (hc : wordComplete p = true) : fw sub = fw p := by
  have hp : List.IsPrefix p sub := by
    rwa [← List.isPrefixOf_iff_prefix]
  rcases hp with ⟨t, rfl⟩
  have hr : ¬(p.dropWhile pySpace).isEmpty := by
    intro h
    rw [wordComplete, List.isEmpty_iff.mp h] at hc
    simp at hc
  unfold fw
  rw [List.dropWhile_append, if_neg hr]
  have hstop : ¬((p.dropWhile pySpace).takeWhile fun c => !pySpace c).length =
      (p.dropWhile pySpace).length := by
    intro hlen
    have hsplit := List.takeWhile_append_dropWhile
      (fun c => !pySpace c) (p.dropWhile pySpace)
    have : ((p.dropWhile pySpace).dropWhile fun c => !pySpace c) = [] := by
      have hlen2 := congrArg List.length hsplit
      rw [List.length_append, hlen] at hlen2
      have : ((p.dropWhile pySpace).dropWhile fun c => !pySpace c).length = 0 := by
        omega
      exact List.eq_nil_of_length_eq_zero this
    rw [wordComplete, this] at hc
    simp at hc
  rw [List.takeWhile_append, if_neg hstop]

theorem fw_append_word (w v : Str) (hw : w ≠ [])
    (hall : ∀ c ∈ w, pySpace c = false) : fw (w ++ ' ' :: v) = w := by
  cases w with
  | nil => exact absurd rfl hw
  | cons c w' =>
    unfold fw
    rw [List.cons_append, List.dropWhile_cons_of_neg
      (by simp [hall c (List.mem_cons_self c w')]), ← List.cons_append]
    rw [List.takeWhile_append_of_pos (by
      intro a ha
      simp [hall a ha])]
    rw [List.takeWhile_cons_of_neg (by decide)]
    simp

end ShellMaster

namespace ShellMaster

/-! ## Pipeline-split lemmas for C4 -/

theorem rawSplit_nil (acc : Str) : rawSplit [] acc = [acc.reverse] := rfl

theorem rawSplit_pipe (rest acc : Str) :
    rawSplit ('|' :: rest) acc = acc.reverse :: rawSplit rest [] := rfl

theorem rawSplit_amp2 (rest acc : Str) :
    rawSplit ('&' :: '&' :: rest) acc = acc.reverse :: rawSplit rest [] := rfl

theorem rawSplit_other (c : Char) (rest acc : Str) (h1 : c ≠ '|')
    (h2 : ¬(c = '&' ∧ rest.head? = some '&')) :
    rawSplit (c :: rest) acc = rawSplit rest (c :: acc) := by
  rw [rawSplit.eq_def]
  split
  · simp_all
  · rename_i rest2 heq
    injection heq with hc hr
    exact absurd hc h1
  · rename_i rest2 heq
    injection heq with hc hr
    exact absurd ⟨hc, by simp [hr]⟩ h2
  · rename_i c2 rest2 hn1 hn2 heq
    injection heq with hc hr
    subst hc; subst hr
    rfl

theorem rawSplit_no_sep (s : Str) (h1 : '|' ∉ s) (h2 : '&' ∉ s) :
    ∀ acc, rawSplit s acc = [acc.reverse ++ s] := by
  induction s with
  | nil => intro acc; simp [rawSplit_nil]
  | cons c rest ih =>
    intro acc
    have hc1 : c ≠ '|' := fun h => h1 (h ▸ List.mem_cons_self c rest)
    have hc2 : c ≠ '&' := fun h => h2 (h ▸ List.mem_cons_self c rest)
    rw [rawSplit_other c rest acc hc1 (fun h => hc2 h.1),
      ih (fun h => h1 (List.mem_cons_of_mem _ h))
         (fun h => h2 (List.mem_cons_of_mem _ h)) (c :: acc)]
    simp

theorem rawSplit_head_aux (n : Nat) :
    ∀ s : Str, s.length ≤ n →
      ∀ acc, ∃ suffix ps, rawSplit s acc = (acc.reverse ++ suffix) :: ps := by
  induction n with
  | zero =>
    intro s hs acc
    have : s = [] := List.eq_nil_of_length_eq_zero (Nat.le_zero.mp hs)
    subst this
    exact ⟨[], [], by simp [rawSplit_nil]⟩
  | succ n ih =>
    intro s hs acc
    cases s with
    | nil => exact ⟨[], [], by simp [rawSplit_nil]⟩
    | cons c rest =>
      by_cases hc1 : c = '|'
      · subst hc1
        exact ⟨[], rawSplit rest [], by simp [rawSplit_pipe]⟩
      · by_cases hc2 : c = '&' ∧ rest.head? = some '&'
        · obtain ⟨hc, hh⟩ := hc2
          subst hc
          cases rest with
          | nil => simp at hh
          | cons d rest2 =>
            have hd : d = '&' := by simpa using hh
            subst hd
            exact ⟨[], rawSplit rest2 [], by simp [rawSplit_amp2]⟩
        · rw [rawSplit_other c rest acc hc1 hc2]
          have hlen : rest.length ≤ n := by
            simp only [List.length_cons] at hs
            omega
          obtain ⟨suffix, ps, hps⟩ := ih rest hlen (c :: acc)
          refine ⟨c :: suffix, ps, ?_⟩
          rw [hps]
          simp

theorem rawSplit_head (s acc : Str) :
    ∃ suffix ps, rawSplit s acc = (acc.reverse ++ suffix) :: ps :=
  rawSplit_head_aux s.length s (Nat.le_refl _) acc

end ShellMaster

namespace ShellMaster

/-! ## Allow-list loop analysis for C4 -/

/-- The first single-word entry of the list equal to `base` (multi-word
entries are skipped). -/
def allowFirstSingle (base : Str) : List Str → Option Str
  | [] => none
  | a :: rest =>
    if a.contains ' ' = false ∧ base = a then some a
    else allowFirstSingle base rest

/-- Characterization of `allowFold` when no multi-word entry can match
`sub`: the loop is decided by the first single-word entry equal to
`base`.  The per-entry side conditions on the first word of `sub` are
decidable once `fw sub` is known. -/
theorem allowFold_eq (sub orig base w : Str) (hfw : fw sub = w)
    (entries : List Str)
    (hm : ∀ a ∈ entries, a.contains ' ' = true →
      wordComplete (a ++ [' ']) = true ∧ fw a ≠ w ∧ fw (a ++ [' ']) ≠ w) :
    allowFold sub orig base entries =
      match allowFirstSingle base entries with
      | some a =>
        if RESTRICTED_BASES.contains a then check_restricted_command orig a else true
      | none => false := by
  induction entries with
  | nil => rfl
  | cons a rest ih =>
    by_cases hsp : a.contains ' '
    · obtain ⟨hwc, hfa, hfas⟩ := hm a (List.mem_cons_self a rest) hsp
      have hc1 : decide (sub = a) = false := by
        by_cases he : sub = a
        · exact absurd (he ▸ hfw) hfa
        · simp [he]
      have hc2 : (a ++ [' ']).isPrefixOf sub = false := by
        cases hb : (a ++ [' ']).isPrefixOf sub with
        | false => rfl
        | true =>
          have := fw_of_isPrefixOf (a ++ [' ']) sub hb hwc
          rw [hfw] at this
          exact absurd this.symm hfas
      have hsp2 : ' ' ∈ a := (containsChar_iff a ' ').mp hsp
      rw [show allowFold sub orig base (a :: rest) =
          allowFold sub orig base rest from by
        simp [allowFold, hsp2, hc1, hc2]]
      rw [show allowFirstSingle base (a :: rest) = allowFirstSingle base rest from by
        simp [allowFirstSingle, hsp2]]
      exact ih fun x hx h => hm x (List.mem_cons_of_mem _ hx) h
    · have hsp2 : ' ' ∉ a := fun hmem =>
        hsp ((containsChar_iff a ' ').mpr hmem)
      by_cases hb : base = a
      · rw [show allowFold sub orig base (a :: rest) =
            (if RESTRICTED_BASES.contains a then check_restricted_command orig a
             else true) from by
          simp [allowFold, hsp2, hb]]
        rw [show allowFirstSingle base (a :: rest) = some a from by
          simp [allowFirstSingle, hsp2, hb]]
      · rw [show allowFold sub orig base (a :: rest) =
            allowFold sub orig base rest from by
          simp [allowFold, hsp2, hb]]
        rw [show allowFirstSingle base (a :: rest) = allowFirstSingle base rest from by
          simp [allowFirstSingle, hsp2, hb]]
        exact ih fun x hx h => hm x (List.mem_cons_of_mem _ hx) h

end ShellMaster

namespace ShellMaster

/-! ## Word-shaped fragments: strip, base command, allow-check (C4) -/

theorem dropWhile_eq_self_of_all (p : Char → Bool) (l : Str)
    (h : ∀ c ∈ l, p c = false) : l.dropWhile p = l := by
  cases l with
  | nil => rfl
  | cons c rest =>
    exact List.dropWhile_cons_of_neg (by simp [h c (List.mem_cons_self c rest)])

theorem rstrip_all_nonws (l : Str) (h : ∀ c ∈ l, pySpace c = false) :
    rstrip l = l := by
  unfold rstrip
  rw [dropWhile_eq_self_of_all pySpace l.reverse (by
    intro c hc
    exact h c (List.mem_reverse.mp hc))]
  exact List.reverse_reverse l

theorem strip_all_nonws (l : Str) (h : ∀ c ∈ l, pySpace c = false) :
    strip l = l := by
  unfold strip lstrip
  rw [dropWhile_eq_self_of_all pySpace l h, rstrip_all_nonws l h]

theorem fw_all_nonws (l : Str) (h : ∀ c ∈ l, pySpace c = false) : fw l = l := by
  unfold fw
  rw [dropWhile_eq_self_of_all pySpace l h]
  exact List.takeWhile_eq_self_iff.mpr (by
    intro c hc
    simp [h c hc])

theorem strip_ext (b v : Str) (hbne : b ≠ [])
    (hbch : ∀ c ∈ b, pySpace c = false)
    (hveq : rstrip v = v) (hvne : v ≠ []) :
    strip (b ++ ' ' :: v) = b ++ ' ' :: v := by
  cases b with
  | nil => exact absurd rfl hbne
  | cons c b' =>
    rw [strip_cons_append c (hbch c (List.mem_cons_self c b')) b' (' ' :: v)]
    have hsv : rstrip (' ' :: v) = ' ' :: v := by
      rw [show (' ' :: v : Str) = [' '] ++ v from rfl, rstrip_append, hveq,
        if_neg hvne]
    rw [hsv, if_neg (by simp)]

theorem splitChAux_no_sep (sep : Char) (s : Str) (h : sep ∉ s) :
    ∀ acc, splitChAux sep s acc = [acc.reverse ++ s] := by
  induction s with
  | nil => intro acc; simp [splitChAux]
  | cons c rest ih =>
    intro acc
    have hc : c ≠ sep := fun he => h (he ▸ List.mem_cons_self c rest)
    rw [show splitChAux sep (c :: rest) acc = splitChAux sep rest (c :: acc) from by
      simp [splitChAux, hc]]
    rw [ih (fun hm => h (List.mem_cons_of_mem _ hm)) (c :: acc)]
    simp

theorem lastSlashComp_no_slash (w : Str) (h : '/' ∉ w) : lastSlashComp w = w := by
  unfold lastSlashComp splitChar
  rw [splitChAux_no_sep '/' w h []]
  simp

theorem wsSplitAux_word (v : Str) :
    ∀ (w acc : Str), (∀ c ∈ w, pySpace c = false) → (acc = [] → w ≠ []) →
      wsSplitAux (w ++ ' ' :: v) acc = (acc.reverse ++ w) :: wsSplitAux v [] := by
  intro w
  induction w with
  | nil =>
    intro acc _ hne
    have hacc : acc ≠ [] := fun h => (hne h) rfl
    simp [wsSplitAux, hacc, pySpace]
  | cons c w' ih =>
    intro acc hall _
    rw [show (c :: w') ++ ' ' :: v = c :: (w' ++ ' ' :: v) from rfl]
    rw [show wsSplitAux (c :: (w' ++ ' ' :: v)) acc =
        wsSplitAux (w' ++ ' ' :: v) (c :: acc) from by
      simp [wsSplitAux, hall c (List.mem_cons_self c w')]]
    rw [ih (c :: acc) (fun d hd => hall d (List.mem_cons_of_mem _ hd)) (by simp)]
    simp

theorem wsSplitAux_all_nonws (w : Str) :
    ∀ acc, (∀ c ∈ w, pySpace c = false) → (acc = [] → w ≠ []) →
      wsSplitAux w acc = [acc.reverse ++ w] := by
  induction w with
  | nil =>
    intro acc _ hne
    have hacc : acc ≠ [] := fun h => (hne h) rfl
    simp [wsSplitAux, hacc]
  | cons c w' ih =>
    intro acc hall _
    rw [show wsSplitAux (c :: w') acc = wsSplitAux w' (c :: acc) from by
      simp [wsSplitAux, hall c (List.mem_cons_self c w')]]
    rw [ih (c :: acc) (fun d hd => hall d (List.mem_cons_of_mem _ hd)) (by simp)]
    simp

theorem get_base_bare (b : Str) (hbne : b ≠ [])
    (hbch : ∀ c ∈ b, pySpace c = false ∧ c ≠ '/')
    (hsudoB : (lit "sudo ").isPrefixOf b = false) :
    get_base_command b = b := by
  unfold get_base_command
  rw [strip_all_nonws b (fun c hc => (hbch c hc).1)]
  dsimp only
  rw [hsudoB]
  simp only [Bool.false_eq_true, if_false]
  rw [show wsSplit b = [b] from
    wsSplitAux_all_nonws b [] (fun c hc => (hbch c hc).1) (fun _ => hbne)]
  exact lastSlashComp_no_slash b (fun hm => (hbch '/' hm).2 rfl)

theorem get_base_ext (b v : Str) (hbne : b ≠ [])
    (hbch : ∀ c ∈ b, pySpace c = false ∧ c ≠ '/')
    (hveq : rstrip v = v) (hvne : v ≠ [])
    (hsudo : (lit "sudo ").isPrefixOf (b ++ ' ' :: v) = false) :
    get_base_command (b ++ ' ' :: v) = b := by
  unfold get_base_command
  rw [strip_ext b v hbne (fun c hc => (hbch c hc).1) hveq hvne]
  dsimp only
  rw [hsudo]
  simp only [Bool.false_eq_true, if_false]
  rw [show wsSplit (b ++ ' ' :: v) = (b :: wsSplitAux v []) from by
    rw [show wsSplit (b ++ ' ' :: v) = wsSplitAux (b ++ ' ' :: v) [] from rfl]
    rw [wsSplitAux_word v b [] (fun c hc => (hbch c hc).1) (fun _ => hbne)]
    simp]
  exact lastSlashComp_no_slash b (fun hm => (hbch '/' hm).2 rfl)

end ShellMaster

namespace ShellMaster

theorem is_allowed_bare (b : Str) (hbne : b ≠ [])
    (hbch : ∀ c ∈ b, pySpace c = false ∧ c ≠ '/' ∧ c ≠ '=')
    (hsudoB : (lit "sudo ").isPrefixOf b = false)
    (hm : ∀ a ∈ UNCONDITIONAL_ALLOW, a.contains ' ' = true →
      wordComplete (a ++ [' ']) = true ∧ fw a ≠ b ∧ fw (a ++ [' ']) ≠ b) :
    is_allowed_subcmd b =
      match allowFirstSingle b UNCONDITIONAL_ALLOW with
      | some a =>
        if RESTRICTED_BASES.contains a then check_restricted_command b a else true
      | none => false := by
  unfold is_allowed_subcmd
  rw [strip_all_nonws b (fun c hc => (hbch c hc).1)]
  dsimp only
  rw [if_neg hbne, hsudoB]
  rw [show (if (false : Bool) = true then strip (List.drop 5 b) else b) = b from by
    simp]
  have heq : b.contains '=' = false := by
    rw [Bool.eq_false_iff]
    intro hc
    exact (hbch '=' ((containsChar_iff b '=').mp hc)).2.2 rfl
  rw [heq, Bool.false_and, if_neg (by exact Bool.false_ne_true)]
  unfold allowListCheck
  rw [get_base_bare b hbne (fun c hc => ⟨(hbch c hc).1, (hbch c hc).2.1⟩) hsudoB,
    if_neg hbne]
  exact allowFold_eq b b b b (fw_all_nonws b (fun c hc => (hbch c hc).1))
    UNCONDITIONAL_ALLOW hm

theorem is_allowed_ext (b v : Str) (hbne : b ≠ [])
    (hbch : ∀ c ∈ b, pySpace c = false ∧ c ≠ '/')
    (hveq : rstrip v = v) (hvne : v ≠ [])
    (hsudo : (lit "sudo ").isPrefixOf (b ++ ' ' :: v) = false)
    (hm : ∀ a ∈ UNCONDITIONAL_ALLOW, a.contains ' ' = true →
      wordComplete (a ++ [' ']) = true ∧ fw a ≠ b ∧ fw (a ++ [' ']) ≠ b) :
    is_allowed_subcmd (b ++ ' ' :: v) =
      match allowFirstSingle b UNCONDITIONAL_ALLOW with
      | some a =>
        if RESTRICTED_BASES.contains a then
          check_restricted_command (b ++ ' ' :: v) a
        else true
      | none => false := by
  unfold is_allowed_subcmd
  rw [strip_ext b v hbne (fun c hc => (hbch c hc).1) hveq hvne]
  dsimp only
  rw [if_neg (by simp), hsudo]
  simp only [Bool.false_eq_true, if_false]
  have hsp : (b ++ ' ' :: v).contains ' ' = true := by
    rw [containsChar_iff]
    exact List.mem_append_right b (List.mem_cons_self ' ' v)
  rw [hsp]
  simp only [Bool.not_true, Bool.and_false]
  rw [if_neg (by exact Bool.false_ne_true)]
  unfold allowListCheck
  rw [get_base_ext b v hbne hbch hveq hvne hsudo, if_neg hbne]
  exact allowFold_eq (b ++ ' ' :: v) (b ++ ' ' :: v) b b
    (fw_append_word b v hbne (fun c hc => (hbch c hc).1)) UNCONDITIONAL_ALLOW hm

end ShellMaster

namespace ShellMaster

theorem is_safe_eq_body (cmd : Str) :
    is_safe_scout_cmd cmd =
      if strip cmd = [] then false
      else if hasDangerousPattern (strip cmd) then false
      else if hasDangerousCommand (strip cmd) then false
      else checkSubs 0 (splitPipeline (strip cmd)) := rfl

theorem rawSplit_word_prefix (w : Str) (hw : ∀ c ∈ w, c ≠ '|' ∧ c ≠ '&') :
    ∀ r acc, rawSplit (w ++ r) acc = rawSplit r (w.reverse ++ acc) := by
  induction w with
  | nil => intro r acc; simp
  | cons c w' ih =>
    intro r acc
    have hc := hw c (List.mem_cons_self c w')
    rw [List.cons_append,
      rawSplit_other c (w' ++ r) acc hc.1 (fun h => hc.2 h.1),
      ih (fun d hd => hw d (List.mem_cons_of_mem _ hd)) r (c :: acc)]
    simp

theorem checkSubs_head_false (p : Str) (ps : List Str) (hs : strip p ≠ [])
    (hal : is_allowed_subcmd (strip p) = false) :
    checkSubs 0 (p :: ps) = false := by
  simp [checkSubs, hs, hal]

theorem checkSubs_head_single (p : Str) (hs : strip p ≠ [])
    (hcombo : COMBO_ONLY_COMMANDS.contains (get_base_command (strip p)) = false) :
    checkSubs 0 [p] = is_allowed_subcmd (strip p) := by
  have hnc : get_base_command (strip p) ∉ COMBO_ONLY_COMMANDS := fun h => by
    rw [show COMBO_ONLY_COMMANDS.contains (get_base_command (strip p)) =
      COMBO_ONLY_COMMANDS.elem (get_base_command (strip p)) from rfl,
      List.elem_iff.mpr h] at hcombo
    exact absurd hcombo (by decide)
  by_cases hal : is_allowed_subcmd (strip p)
  · simp [checkSubs, hs, hnc, hal]
  · simp [checkSubs, hs, hnc, hal]

/-- The side conditions on a base word `b` under which the analysis of a
fragment `b ++ " " ++ t` goes through: `b` is non-empty, contains no
whitespace, slash, pipe, ampersand or equals sign, is not `sudo`-prefixed
in any relevant position, and no multi-word allow entry can have first
word `b`. -/
structure BaseWordFacts (b : Str) : Prop where
  hbne : b ≠ []
  hbch : ∀ c ∈ b, pySpace c = false ∧ c ≠ '/' ∧ c ≠ '|' ∧ c ≠ '&' ∧ c ≠ '='
  hsudoB : (lit "sudo ").isPrefixOf b = false
  hsudo : ∀ v : Str, (lit "sudo ").isPrefixOf (b ++ ' ' :: v) = false
  hcombo : COMBO_ONLY_COMMANDS.contains b = false
  hm : ∀ a ∈ UNCONDITIONAL_ALLOW, a.contains ' ' = true →
    wordComplete (a ++ [' ']) = true ∧ fw a ≠ b ∧ fw (a ++ [' ']) ≠ b

theorem strip_word_ext (b t : Str) (hbne : b ≠ [])
    (hbch : ∀ c ∈ b, pySpace c = false) :
    strip (b ++ ' ' :: t) =
      if rstrip t = [] then b else b ++ ' ' :: rstrip t := by
  cases b with
  | nil => exact absurd rfl hbne
  | cons c b' =>
    rw [strip_cons_append c (hbch c (List.mem_cons_self c b')) b' (' ' :: t)]
    have hsv : rstrip (' ' :: t) =
        if rstrip t = [] then [] else ' ' :: rstrip t := by
      rw [show (' ' :: t : Str) = [' '] ++ t from rfl, rstrip_append]
      by_cases h : rstrip t = []
      · rw [if_pos h, if_pos h]
        decide
      · rw [if_neg h, if_neg h]
        rfl
    rw [hsv]
    by_cases h : rstrip t = []
    · simp [h, rstrip_all_nonws (c :: b') hbch]
    · simp [h]

theorem is_allowed_word_result (b : Str) (F : BaseWordFacts b) (s : Str)
    (hshape : s = b ∨ ∃ v, v ≠ [] ∧ rstrip v = v ∧ s = b ++ ' ' :: v) :
    is_allowed_subcmd s =
      match allowFirstSingle b UNCONDITIONAL_ALLOW with
      | some a =>
        if RESTRICTED_BASES.contains a then check_restricted_command s a else true
      | none => false := by
  rcases hshape with h | ⟨v, hvne, hveq, h⟩
  · rw [h]
    exact is_allowed_bare b F.hbne
      (fun c hc => ⟨(F.hbch c hc).1, (F.hbch c hc).2.1, (F.hbch c hc).2.2.2.2⟩)
      F.hsudoB F.hm
  · rw [h]
    exact is_allowed_ext b v F.hbne
      (fun c hc => ⟨(F.hbch c hc).1, (F.hbch c hc).2.1⟩)
      hveq hvne (F.hsudo v) F.hm

theorem get_base_word_result (b : Str) (F : BaseWordFacts b) (s : Str)
    (hshape : s = b ∨ ∃ v, v ≠ [] ∧ rstrip v = v ∧ s = b ++ ' ' :: v) :
    get_base_command s = b := by
  rcases hshape with h | ⟨v, hvne, hveq, h⟩
  · rw [h]
    exact get_base_bare b F.hbne
      (fun c hc => ⟨(F.hbch c hc).1, (F.hbch c hc).2.1⟩) F.hsudoB
  · rw [h]
    exact get_base_ext b v F.hbne
      (fun c hc => ⟨(F.hbch c hc).1, (F.hbch c hc).2.1⟩) hveq hvne (F.hsudo v)

theorem strip_word_shape (b u : Str) (F : BaseWordFacts b) :
    strip (b ++ ' ' :: u) = b ∨
      ∃ v, v ≠ [] ∧ rstrip v = v ∧ strip (b ++ ' ' :: u) = b ++ ' ' :: v := by
  rw [strip_word_ext b u F.hbne (fun c hc => (F.hbch c hc).1)]
  by_cases h : rstrip u = []
  · left; simp [h]
  · right
    exact ⟨rstrip u, h, rstrip_idem u, by simp [h]⟩

end ShellMaster

namespace ShellMaster

theorem mem_rstrip (t : Str) (c : Char) (hc : c ∈ rstrip t) : c ∈ t := by
  unfold rstrip at hc
  rw [List.mem_reverse] at hc
  exact List.mem_reverse.mp ((List.dropWhile_sublist _).subset hc)

/-- If the base word of a fragment never matches any entry of the allow
list, the whole fragment `b ++ " " ++ t` is rejected by the gate, for
every tail `t`. -/
theorem is_safe_word_notAllowed (b : Str) (F : BaseWordFacts b)
    (hnone : allowFirstSingle b UNCONDITIONAL_ALLOW = none) (t : Str) :
    is_safe_scout_cmd (b ++ ' ' :: t) = false := by
  have hns : ∀ c ∈ b, c ≠ '|' ∧ c ≠ '&' := fun c hc =>
    ⟨(F.hbch c hc).2.2.1, (F.hbch c hc).2.2.2.1⟩
  rw [is_safe_eq_body]
  rcases strip_word_shape b t F with hst | ⟨v, hvne, hveq, hst⟩
  · rw [hst, if_neg F.hbne]
    cases hp : hasDangerousPattern b with
    | true => simp
    | false =>
      cases hd : hasDangerousCommand b with
      | true => simp
      | false =>
        simp only [Bool.false_eq_true, if_false]
        have hsplit : splitPipeline b = [b] := by
          unfold splitPipeline
          rw [rawSplit_no_sep b (fun h => (hns '|' h).1 rfl)
            (fun h => (hns '&' h).2 rfl) []]
          rfl
        rw [hsplit]
        apply checkSubs_head_false
        · rw [strip_all_nonws b (fun c hc => (F.hbch c hc).1)]
          exact F.hbne
        · rw [strip_all_nonws b (fun c hc => (F.hbch c hc).1),
            is_allowed_word_result b F b (Or.inl rfl), hnone]
  · rw [hst, if_neg (by simp)]
    cases hp : hasDangerousPattern (b ++ ' ' :: v) with
    | true => simp
    | false =>
      cases hd : hasDangerousCommand (b ++ ' ' :: v) with
      | true => simp
      | false =>
        simp only [Bool.false_eq_true, if_false]
        obtain ⟨suffix, ps, hraw⟩ := rawSplit_head v (' ' :: b.reverse)
        have hsplit : splitPipeline (b ++ ' ' :: v) =
            (b ++ ' ' :: suffix) :: ps := by
          unfold splitPipeline
          rw [show (b ++ ' ' :: v : Str) = b ++ (' ' :: v) from rfl,
            rawSplit_word_prefix b hns (' ' :: v) [], List.append_nil,
            rawSplit_other ' ' v b.reverse (by decide)
              (fun h => absurd h.1 (by decide)),
            hraw]
          simp
        rw [hsplit]
        apply checkSubs_head_false
        · rcases strip_word_shape b suffix F with h | ⟨w, _, _, h⟩
          · rw [h]; exact F.hbne
          · rw [h]; simp
        · rw [is_allowed_word_result b F _ (strip_word_shape b suffix F),
            hnone]

/-- When the base word of a pipe-free, ampersand-free fragment matches
an allow-list entry, the gate's verdict on the fragment reduces to the
allow-loop result: the restricted per-rule check when the entry is
restricted, otherwise acceptance. -/
theorem is_safe_word_eval (b : Str) (F : BaseWordFacts b) (t : Str)
    (hp : hasDangerousPattern (strip (b ++ ' ' :: t)) = false)
    (hd : hasDangerousCommand (strip (b ++ ' ' :: t)) = false)
    (h1 : '|' ∉ t) (h2 : '&' ∉ t) :
    is_safe_scout_cmd (b ++ ' ' :: t) =
      match allowFirstSingle b UNCONDITIONAL_ALLOW with
      | some a =>
        if RESTRICTED_BASES.contains a then
          check_restricted_command (strip (b ++ ' ' :: t)) a
        else true
      | none => false := by
  have hns : ∀ c ∈ b, c ≠ '|' ∧ c ≠ '&' := fun c hc =>
    ⟨(F.hbch c hc).2.2.1, (F.hbch c hc).2.2.2.1⟩
  have hshape := strip_word_shape b t F
  have hstx := strip_word_ext b t F.hbne (fun c hc => (F.hbch c hc).1)
  have hs : strip (b ++ ' ' :: t) ≠ [] := by
    rcases hshape with h | ⟨w, _, _, h⟩
    · rw [h]; exact F.hbne
    · rw [h]; simp
  have hsep1 : '|' ∉ strip (b ++ ' ' :: t) := by
    rw [hstx]
    by_cases h : rstrip t = []
    · rw [if_pos h]
      exact fun hm => (hns '|' hm).1 rfl
    · rw [if_neg h]
      intro hm
      rcases List.mem_append.mp hm with hm | hm
      · exact (hns '|' hm).1 rfl
      · rcases List.mem_cons.mp hm with hm | hm
        · exact absurd hm (by decide)
        · exact h1 (mem_rstrip t '|' hm)
  have hsep2 : '&' ∉ strip (b ++ ' ' :: t) := by
    rw [hstx]
    by_cases h : rstrip t = []
    · rw [if_pos h]
      exact fun hm => (hns '&' hm).2 rfl
    · rw [if_neg h]
      intro hm
      rcases List.mem_append.mp hm with hm | hm
      · exact (hns '&' hm).2 rfl
      · rcases List.mem_cons.mp hm with hm | hm
        · exact absurd hm (by decide)
        · exact h2 (mem_rstrip t '&' hm)
  have hss : strip (strip (b ++ ' ' :: t)) = strip (b ++ ' ' :: t) := by
    rcases hshape with h | ⟨w, hwne, hweq, h⟩
    · rw [h, strip_all_nonws b (fun c hc => (F.hbch c hc).1)]
    · rw [h, strip_ext b w F.hbne (fun c hc => (F.hbch c hc).1) hweq hwne]
  rw [is_safe_eq_body, if_neg hs, hp, hd]
  simp only [Bool.false_eq_true, if_false]
  have hsplit : splitPipeline (strip (b ++ ' ' :: t)) =
      [strip (b ++ ' ' :: t)] := by
    unfold splitPipeline
    rw [rawSplit_no_sep _ hsep1 hsep2 []]
    rfl
  rw [hsplit,
    checkSubs_head_single _ (by rw [hss]; exact hs)
      (by rw [hss, get_base_word_result b F _ hshape]; exact F.hcombo),
    hss, is_allowed_word_result b F _ hshape]

end ShellMaster

namespace ShellMaster

theorem sedFacts : BaseWordFacts (lit "sed") where
  hbne := by decide
  hbch := by decide
  hsudoB := by decide
  hsudo := fun v => rfl
  hcombo := by decide
  hm := by decide

theorem awkFacts : BaseWordFacts (lit "awk") where
  hbne := by decide
  hbch := by decide
  hsudoB := by decide
  hsudo := fun v => rfl
  hcombo := by decide
  hm := by decide

theorem perlFacts : BaseWordFacts (lit "perl") where
  hbne := by decide
  hbch := by decide
  hsudoB := by decide
  hsudo := fun v => rfl
  hcombo := by decide
  hm := by decide

theorem curlFacts : BaseWordFacts (lit "curl") where
  hbne := by decide
  hbch := by decide
  hsudoB := by decide
  hsudo := fun v => rfl
  hcombo := by decide
  hm := by decide

theorem wgetFacts : BaseWordFacts (lit "wget") where
  hbne := by decide
  hbch := by decide
  hsudoB := by decide
  hsudo := fun v => rfl
  hcombo := by decide
  hm := by decide

theorem teeFacts : BaseWordFacts (lit "tee") where
  hbne := by decide
  hbch := by decide
  hsudoB := by decide
  hsudo := fun v => rfl
  hcombo := by decide
  hm := by decide

theorem sleepFacts : BaseWordFacts (lit "sleep") where
  hbne := by decide
  hbch := by decide
  hsudoB := by decide
  hsudo := fun v => rfl
  hcombo := by decide
  hm := by decide

end ShellMaster

namespace ShellMaster

theorem is_safe_word_restricted (b : Str) (F : BaseWordFacts b)
    (hfs : allowFirstSingle b UNCONDITIONAL_ALLOW = some b)
    (hrb : RESTRICTED_BASES.contains b = true) (t : Str)
    (hp : hasDangerousPattern (strip (b ++ ' ' :: t)) = false)
    (hd : hasDangerousCommand (strip (b ++ ' ' :: t)) = false)
    (h1 : '|' ∉ t) (h2 : '&' ∉ t) :
    is_safe_scout_cmd (b ++ ' ' :: t) =
      check_restricted_command (strip (b ++ ' ' :: t)) b := by
  rw [is_safe_word_eval b F t hp hd h1 h2, hfs]
  dsimp only
  rw [hrb, if_pos rfl]

end ShellMaster

namespace ShellMaster

/-- C4: counterexample. The fragment `sed -n p` has base token `sed`
(a member of the restricted set), contains no Tier-1 dangerous pattern
and no deny-listed command, and passes the `sed` per-rule check (no `-i`
or `--in-place`), yet `is_safe_scout_cmd` rejects it: the claimed
"accepted if and only if it passes that token's per-rule check" fails,
because `sed` (like `awk` and `perl`) never appears in the allow list
and is therefore rejected unconditionally. -/
theorem c4_counterexample :
    hasDangerousPattern (strip (lit "sed -n p")) = false ∧
    hasDangerousCommand (strip (lit "sed -n p")) = false ∧
    get_base_command (strip (lit "sed -n p")) = lit "sed" ∧
    check_restricted_command (strip (lit "sed -n p")) (lit "sed") = true ∧
    is_safe_scout_cmd (lit "sed -n p") = false := by
  refine ⟨by decide, by decide, by decide, by decide, by decide⟩

/-- C4 (amended): among the restricted bases, `sed`, `awk` and `perl`
are rejected by the safety gate on every argument tail regardless of the
per-rule check (they are not in the allow list), while `curl`, `wget`,
`tee` and `sleep` fragments — when free of Tier-1 patterns, deny-listed
commands, pipes and ampersands — are accepted if and only if they pass
the corresponding per-rule check (`_check_restricted_command`). -/
theorem c4_amended :
    (∀ t : Str, is_safe_scout_cmd (lit "sed" ++ ' ' :: t) = false) ∧
    (∀ t : Str, is_safe_scout_cmd (lit "awk" ++ ' ' :: t) = false) ∧
    (∀ t : Str, is_safe_scout_cmd (lit "perl" ++ ' ' :: t) = false) ∧
    (∀ t : Str,
      hasDangerousPattern (strip (lit "curl" ++ ' ' :: t)) = false →
      hasDangerousCommand (strip (lit "curl" ++ ' ' :: t)) = false →
      '|' ∉ t → '&' ∉ t →
      is_safe_scout_cmd (lit "curl" ++ ' ' :: t) =
        check_restricted_command (strip (lit "curl" ++ ' ' :: t))
          (lit "curl")) ∧
    (∀ t : Str,
      hasDangerousPattern (strip (lit "wget" ++ ' ' :: t)) = false →
      hasDangerousCommand (strip (lit "wget" ++ ' ' :: t)) = false →
      '|' ∉ t → '&' ∉ t →
      is_safe_scout_cmd (lit "wget" ++ ' ' :: t) =
        check_restricted_command (strip (lit "wget" ++ ' ' :: t))
          (lit "wget")) ∧
    (∀ t : Str,
      hasDangerousPattern (strip (lit "tee" ++ ' ' :: t)) = false →
      hasDangerousCommand (strip (lit "tee" ++ ' ' :: t)) = false →
      '|' ∉ t → '&' ∉ t →
      is_safe_scout_cmd (lit "tee" ++ ' ' :: t) =
        check_restricted_command (strip (lit "tee" ++ ' ' :: t))
          (lit "tee")) ∧
    (∀ t : Str,
      hasDangerousPattern (strip (lit "sleep" ++ ' ' :: t)) = false →
      hasDangerousCommand (strip (lit "sleep" ++ ' ' :: t)) = false →
      '|' ∉ t → '&' ∉ t →
      is_safe_scout_cmd (lit "sleep" ++ ' ' :: t) =
        check_restricted_command (strip (lit "sleep" ++ ' ' :: t))
          (lit "sleep")) := by
  refine ⟨?_, ?_, ?_, ?_, ?_, ?_, ?_⟩
  · exact is_safe_word_notAllowed (lit "sed") sedFacts (by decide)
  · exact is_safe_word_notAllowed (lit "awk") awkFacts (by decide)
  · exact is_safe_word_notAllowed (lit "perl") perlFacts (by decide)
  · exact fun t hp hd h1 h2 =>
      is_safe_word_restricted (lit "curl") curlFacts (by decide) (by decide)
        t hp hd h1 h2
  · exact fun t hp hd h1 h2 =>
      is_safe_word_restricted (lit "wget") wgetFacts (by decide) (by decide)
        t hp hd h1 h2
  · exact fun t hp hd h1 h2 =>
      is_safe_word_restricted (lit "tee") teeFacts (by decide) (by decide)
        t hp hd h1 h2
  · exact fun t hp hd h1 h2 =>
      is_safe_word_restricted (lit "sleep") sleepFacts (by decide) (by decide)
        t hp hd h1 h2

/-- C4: witness for the amended claim at concrete inputs. `sed -n p` and
`sed -i s/a/b/ f` are both rejected; `curl --version` passes the `curl`
per-rule check and is accepted; `curl -X POST http://x` fails the `curl`
per-rule check (POST is not an allowed method) and is rejected. -/
theorem c4_witness :
    is_safe_scout_cmd (lit "sed -n p") = false ∧
    is_safe_scout_cmd (lit "sed -i s/a/b/ f") = false ∧
    is_safe_scout_cmd (lit "curl --version") = true ∧
    is_safe_scout_cmd (lit "curl -X POST http://x") = false := by
  have h := c4_amended
  refine ⟨?_, ?_, ?_, ?_⟩
  · rw [show (lit "sed -n p" : Str) = lit "sed" ++ ' ' :: lit "-n p" from
      rfl]
    exact h.1 (lit "-n p")
  · rw [show (lit "sed -i s/a/b/ f" : Str) =
      lit "sed" ++ ' ' :: lit "-i s/a/b/ f" from rfl]
    exact h.1 (lit "-i s/a/b/ f")
  · rw [show (lit "curl --version" : Str) =
      lit "curl" ++ ' ' :: lit "--version" from rfl,
      h.2.2.2.1 (lit "--version") (by decide) (by decide) (by decide)
        (by decide)]
    decide
  · rw [show (lit "curl -X POST http://x" : Str) =
      lit "curl" ++ ' ' :: lit "-X POST http://x" from rfl,
      h.2.2.2.1 (lit "-X POST http://x") (by decide) (by decide) (by decide)
        (by decide)]
    decide

end ShellMaster


namespace ShellMaster

/-! ## C9: idempotence analysis of `fix_json_string` -/

/-- Whether the string begins with two backticks. -/
def twoTicksLead (s : Str) : Bool :=
  match s with
  | a :: b :: _ => a == '\x60' && b == '\x60'
  | _ => false

/-- Whether the string contains three consecutive backticks. -/
def hasTriple : Str → Bool
  | [] => false
  | c :: rest => (c == '\x60' && twoTicksLead rest) || hasTriple rest

/-- Whether the first non-whitespace character of `s` is `close`. -/
def closeAfterWs (close : Char) (s : Str) : Bool :=
  match s.dropWhile pySpace with
  | [] => false
  | c :: _ => c == close

/-- Whether the string contains a comma followed by optional whitespace
and then `close` — i.e. a residual match of `re.sub(r",\s*X", "X", ·)`. -/
def hasCC (close : Char) : Str → Bool
  | [] => false
  | c :: rest => (c == ',' && closeAfterWs close rest) || hasCC close rest

theorem rmTJaux_nomatch (b : Bool) (c : Char) (rest : Str)
    (h : ∀ rest2 : Str,
      c :: rest ≠ '\x60' :: '\x60' :: '\x60' :: 'j' :: 's' :: 'o' :: 'n' :: rest2) :
    rmTJaux b (c :: rest) =
      if b && pySpace c then rmTJaux true rest else c :: rmTJaux false rest := by
  rw [rmTJaux.eq_def]
  split
  · simp_all
  · rename_i rest2 heq
    exact absurd heq (h rest2)
  · rename_i b2 c2 rest3 hn1 hn2 heq
    injection heq with hc hr
    subst hc; subst hr
    rfl

theorem rmTaux_nomatch (b : Bool) (c : Char) (rest : Str)
    (h : ∀ rest2 : Str, c :: rest ≠ '\x60' :: '\x60' :: '\x60' :: rest2) :
    rmTaux b (c :: rest) =
      if b && pySpace c then rmTaux true rest else c :: rmTaux false rest := by
  rw [rmTaux.eq_def]
  split
  · simp_all
  · rename_i rest2 heq
    exact absurd heq (h rest2)
  · rename_i b2 c2 rest3 hn1 hn2 heq
    injection heq with hc hr
    subst hc; subst hr
    rfl

theorem rmTicksJson_id (s : Str) (h : hasTriple s = false) :
    rmTicksJson s = s := by
  unfold rmTicksJson
  induction s with
  | nil => rfl
  | cons c rest ih =>
    have h12 := Bool.or_eq_false_iff.mp h
    have hno : ∀ rest2 : Str,
        c :: rest ≠ '\x60' :: '\x60' :: '\x60' :: 'j' :: 's' :: 'o' :: 'n' :: rest2 := by
      intro rest2 heq
      injection heq with hc hr
      subst hc; subst hr
      exact Bool.noConfusion h12.1
    rw [rmTJaux_nomatch false c rest hno,
      show (false && pySpace c) = false from rfl]
    simp only [Bool.false_eq_true, if_false]
    rw [ih h12.2]

theorem rmTicks_id (s : Str) (h : hasTriple s = false) :
    rmTicks s = s := by
  unfold rmTicks
  induction s with
  | nil => rfl
  | cons c rest ih =>
    have h12 := Bool.or_eq_false_iff.mp h
    have hno : ∀ rest2 : Str, c :: rest ≠ '\x60' :: '\x60' :: '\x60' :: rest2 := by
      intro rest2 heq
      injection heq with hc hr
      subst hc; subst hr
      exact Bool.noConfusion h12.1
    rw [rmTaux_nomatch false c rest hno,
      show (false && pySpace c) = false from rfl]
    simp only [Bool.false_eq_true, if_false]
    rw [ih h12.2]

end ShellMaster

namespace ShellMaster

theorem commaFixAux_some_cons (close : Char) (ws : Str) (c : Char) (rest : Str) :
    commaFixAux close (some ws) (c :: rest) =
      if c = close then close :: commaFixAux close none rest
      else if pySpace c then commaFixAux close (some (ws ++ [c])) rest
      else if c = ',' then (',' :: ws) ++ commaFixAux close (some []) rest
      else (',' :: ws) ++ c :: commaFixAux close none rest := rfl

theorem commaFixAux_none_cons (close : Char) (c : Char) (rest : Str) :
    commaFixAux close none (c :: rest) =
      if c = ',' then commaFixAux close (some []) rest
      else c :: commaFixAux close none rest := rfl

theorem commaFixAux_some_ne_nil (close : Char) :
    ∀ (s ws : Str), commaFixAux close (some ws) s ≠ [] := by
  intro s
  induction s with
  | nil => intro ws; simp [commaFixAux]
  | cons c rest ih =>
    intro ws
    rw [commaFixAux_some_cons]
    by_cases h1 : c = close
    · simp [h1]
    · rw [if_neg h1]
      by_cases h2 : pySpace c = true
      · rw [if_pos h2]
        exact ih (ws ++ [c])
      · rw [if_neg h2]
        by_cases h3 : c = ','
        · rw [if_pos h3]; simp
        · rw [if_neg h3]; simp

theorem commaFixAux_none_ne_nil (close : Char) (s : Str) (h : s ≠ []) :
    commaFixAux close none s ≠ [] := by
  cases s with
  | nil => exact absurd rfl h
  | cons c rest =>
    rw [commaFixAux_none_cons]
    by_cases h3 : c = ','
    · rw [if_pos h3]
      exact commaFixAux_some_ne_nil close rest []
    · rw [if_neg h3]; simp

theorem gl_cons (c : Char) (l : Str) (h : l ≠ []) :
    (c :: l).getLast? = l.getLast? := by
  obtain ⟨d, t, rfl⟩ := List.exists_cons_of_ne_nil h
  exact List.getLast?_cons_cons

theorem commaFixAux_getLast (close : Char) :
    ∀ (s : Str) (L : Char), s.getLast? = some L → pySpace L = false →
      (∀ ws, (commaFixAux close (some ws) s).getLast? = some L) ∧
      (commaFixAux close none s).getLast? = some L := by
  intro s
  induction s with
  | nil => intro L hL hw; simp at hL
  | cons c rest ih =>
    intro L hL hw
    by_cases hrest : rest = []
    · subst hrest
      have hc : c = L := by simpa using hL
      have h2 : pySpace c = false := by rw [hc]; exact hw
      constructor
      · intro ws
        rw [commaFixAux_some_cons]
        by_cases h1 : c = close
        · rw [if_pos h1]
          rw [show commaFixAux close none ([] : Str) = [] from rfl, ← h1, hc]
          simp
        · rw [if_neg h1, if_neg (by simp [h2])]
          by_cases h3 : c = ','
          · rw [if_pos h3,
              show commaFixAux close (some ([] : Str)) [] = [','] from rfl,
              List.getLast?_append_of_ne_nil _ (by simp), ← h3, hc]
            simp
          · rw [if_neg h3,
              show commaFixAux close none ([] : Str) = [] from rfl,
              List.getLast?_append_of_ne_nil _ (by simp), hc]
            simp
      · rw [commaFixAux_none_cons]
        by_cases h3 : c = ','
        · rw [if_pos h3,
            show commaFixAux close (some ([] : Str)) [] = [','] from rfl,
            ← h3, hc]
          simp
        · rw [if_neg h3,
            show commaFixAux close none ([] : Str) = [] from rfl, hc]
          simp
    · have hLr : rest.getLast? = some L := by
        rw [gl_cons c rest hrest] at hL
        exact hL
      obtain ⟨ihs, ihn⟩ := ih L hLr hw
      constructor
      · intro ws
        rw [commaFixAux_some_cons]
        by_cases h1 : c = close
        · rw [if_pos h1,
            gl_cons close _ (commaFixAux_none_ne_nil close rest hrest)]
          exact ihn
        · rw [if_neg h1]
          by_cases h2 : pySpace c = true
          · rw [if_pos h2]
            exact ihs (ws ++ [c])
          · rw [if_neg h2]
            by_cases h3 : c = ','
            · rw [if_pos h3,
                List.getLast?_append_of_ne_nil _
                  (commaFixAux_some_ne_nil close rest [])]
              exact ihs []
            · rw [if_neg h3,
                List.getLast?_append_of_ne_nil _ (by simp),
                gl_cons c _ (commaFixAux_none_ne_nil close rest hrest)]
              exact ihn
      · rw [commaFixAux_none_cons]
        by_cases h3 : c = ','
        · rw [if_pos h3]
          exact ihs []
        · rw [if_neg h3,
            gl_cons c _ (commaFixAux_none_ne_nil close rest hrest)]
          exact ihn

end ShellMaster

namespace ShellMaster

theorem commaFixAux_some_head (close : Char) :
    ∀ (s ws : Str), ∃ d, (commaFixAux close (some ws) s).head? = some d ∧
      (d = ',' ∨ d = close) := by
  intro s
  induction s with
  | nil => intro ws; exact ⟨',', rfl, Or.inl rfl⟩
  | cons c rest ih =>
    intro ws
    rw [commaFixAux_some_cons]
    by_cases h1 : c = close
    · rw [if_pos h1]
      exact ⟨close, rfl, Or.inr rfl⟩
    · rw [if_neg h1]
      by_cases h2 : pySpace c = true
      · rw [if_pos h2]
        exact ih (ws ++ [c])
      · rw [if_neg h2]
        by_cases h3 : c = ','
        · rw [if_pos h3]
          exact ⟨',', rfl, Or.inl rfl⟩
        · rw [if_neg h3]
          exact ⟨',', rfl, Or.inl rfl⟩

theorem commaFix_head_nonws (close : Char) (hcl : pySpace close = false)
    (s : Str) (hs : ∀ c, s.head? = some c → pySpace c = false) :
    ∀ d, (commaFixAux close none s).head? = some d → pySpace d = false := by
  intro d hd
  cases s with
  | nil => simp [commaFixAux] at hd
  | cons c rest =>
    have hc := hs c rfl
    rw [commaFixAux_none_cons] at hd
    by_cases h3 : c = ','
    · rw [if_pos h3] at hd
      obtain ⟨e, he, hor⟩ := commaFixAux_some_head close rest []
      rw [he] at hd
      injection hd with hd
      subst hd
      rcases hor with rfl | rfl
      · decide
      · exact hcl
    · rw [if_neg h3] at hd
      injection hd with hd
      subst hd
      exact hc

theorem closeAfterWs_cons_ws (close c : Char) (r : Str) (h : pySpace c = true) :
    closeAfterWs close (c :: r) = closeAfterWs close r := by
  unfold closeAfterWs
  rw [List.dropWhile_cons_of_pos h]

theorem closeAfterWs_cons_nonws (close c : Char) (r : Str)
    (h : pySpace c = false) :
    closeAfterWs close (c :: r) = (c == close) := by
  unfold closeAfterWs
  rw [List.dropWhile_cons_of_neg (by simp [h])]

theorem commaFixAux_flush (close : Char) (hcl : pySpace close = false) :
    ∀ (rest ws : Str), closeAfterWs close rest = false →
      hasCC close rest = false →
      commaFixAux close (some ws) rest = ',' :: ws ++ commaFixAux close none rest := by
  intro rest
  induction rest with
  | nil => intro ws _ _; simp [commaFixAux]
  | cons c r ih =>
    intro ws hcaw hcc
    have hcc12 := Bool.or_eq_false_iff.mp
      (show ((c == ',' && closeAfterWs close r) || hasCC close r) = false from hcc)
    rw [commaFixAux_some_cons]
    by_cases h1 : c = close
    · rw [h1, closeAfterWs_cons_nonws close close r hcl] at hcaw
      simp at hcaw
    · rw [if_neg h1]
      by_cases h2 : pySpace c = true
      · rw [if_pos h2]
        have hcne : c ≠ ',' := by
          intro hcEq
          rw [hcEq] at h2
          exact absurd h2 (by decide)
        have hcaw2 : closeAfterWs close r = false := by
          rwa [closeAfterWs_cons_ws close c r h2] at hcaw
        rw [ih (ws ++ [c]) hcaw2 hcc12.2, commaFixAux_none_cons, if_neg hcne]
        simp
      · rw [if_neg h2]
        by_cases h3 : c = ','
        · rw [if_pos h3, commaFixAux_none_cons, if_pos h3]
        · rw [if_neg h3, commaFixAux_none_cons, if_neg h3]

theorem commaFix_id (close : Char) (hcl : pySpace close = false) :
    ∀ s : Str, hasCC close s = false → commaFixAux close none s = s := by
  intro s
  induction s with
  | nil => intro _; rfl
  | cons c r ih =>
    intro h
    have h12 := Bool.or_eq_false_iff.mp
      (show ((c == ',' && closeAfterWs close r) || hasCC close r) = false from h)
    rw [commaFixAux_none_cons]
    by_cases h3 : c = ','
    · rw [if_pos h3]
      have hcaw : closeAfterWs close r = false := by
        have hb : (c == ',') = true := by simp [h3]
        rw [hb, Bool.true_and] at h12
        exact h12.1
      rw [commaFixAux_flush close hcl r [] hcaw h12.2, ih h12.2]
      simp [h3]
    · rw [if_neg h3, ih h12.2]

theorem commaFixAux_sublist (close : Char) :
    ∀ s : Str,
      (∀ ws, List.Sublist (commaFixAux close (some ws) s) (',' :: ws ++ s)) ∧
      List.Sublist (commaFixAux close none s) s := by
  intro s
  induction s with
  | nil =>
    constructor
    · intro ws; simp [commaFixAux]
    · simp [commaFixAux]
  | cons c r ih =>
    obtain ⟨ihs, ihn⟩ := ih
    constructor
    · intro ws
      rw [commaFixAux_some_cons]
      by_cases h1 : c = close
      · rw [if_pos h1, h1]
        exact (List.Sublist.cons₂ close ihn).trans
          (List.sublist_append_right (',' :: ws) (close :: r))
      · rw [if_neg h1]
        by_cases h2 : pySpace c = true
        · rw [if_pos h2]
          have := ihs (ws ++ [c])
          simpa using this
        · rw [if_neg h2]
          by_cases h3 : c = ','
          · rw [if_pos h3, h3]
            exact List.Sublist.append_left (ihs []) (',' :: ws)
          · rw [if_neg h3]
            exact List.Sublist.append_left (List.Sublist.cons₂ c ihn) (',' :: ws)
    · rw [commaFixAux_none_cons]
      by_cases h3 : c = ','
      · rw [if_pos h3, h3]
        exact ihs []
      · rw [if_neg h3]
        exact List.Sublist.cons₂ c ihn

end ShellMaster

namespace ShellMaster

theorem quoteFix_id (s : Str) (h : ∀ c ∈ s, c ≠ '\x27') : quoteFix s = s := by
  unfold quoteFix
  induction s with
  | nil => rfl
  | cons c r ih =>
    rw [List.map_cons, if_neg (h c (List.mem_cons_self c r)),
      ih (fun d hd => h d (List.mem_cons_of_mem c hd))]

theorem quoteFix_no_quote (s : Str) : ∀ c ∈ quoteFix s, c ≠ '\x27' := by
  intro c hc
  unfold quoteFix at hc
  obtain ⟨d, _, rfl⟩ := List.mem_map.mp hc
  by_cases hd : d = '\x27'
  · rw [if_pos hd]
    decide
  · rw [if_neg hd]
    exact hd

theorem qf_pySpace (c : Char) :
    pySpace (if c = '\x27' then '"' else c) = pySpace c := by
  by_cases hd : c = '\x27'
  · rw [if_pos hd, hd]
    decide
  · rw [if_neg hd]

theorem quoteFix_head_nonws (s : Str)
    (h : ∀ c, s.head? = some c → pySpace c = false) :
    ∀ d, (quoteFix s).head? = some d → pySpace d = false := by
  intro d hd
  unfold quoteFix at hd
  rw [List.head?_map] at hd
  cases hs : s.head? with
  | none => rw [hs] at hd; simp at hd
  | some c =>
    rw [hs] at hd
    injection hd with hd
    rw [← hd, qf_pySpace]
    exact h c hs

theorem quoteFix_getLast_nonws (s : Str)
    (h : ∀ c, s.getLast? = some c → pySpace c = false) :
    ∀ d, (quoteFix s).getLast? = some d → pySpace d = false := by
  intro d hd
  unfold quoteFix at hd
  rw [List.getLast?_map] at hd
  cases hs : s.getLast? with
  | none => rw [hs] at hd; simp at hd
  | some c =>
    rw [hs] at hd
    injection hd with hd
    rw [← hd, qf_pySpace]
    exact h c hs

theorem dropWhile_head_not (p : Char → Bool) :
    ∀ (s : Str) (c : Char), (s.dropWhile p).head? = some c → p c = false := by
  intro s
  induction s with
  | nil => intro c hc; simp at hc
  | cons a r ih =>
    intro c hc
    by_cases hp : p a = true
    · rw [List.dropWhile_cons_of_pos hp] at hc
      exact ih c hc
    · rw [List.dropWhile_cons_of_neg hp] at hc
      injection hc with hc
      rw [← hc]
      exact Bool.eq_false_iff.mpr hp

theorem revDropRev_front (p : Char → Bool) (l : Str) :
    (l.reverse.dropWhile p).reverse <+: l := by
  have h1 : l.reverse.dropWhile p <:+ l.reverse := List.dropWhile_suffix p
  simpa using List.reverse_prefix.mpr h1

theorem prefix_head (l₁ l₂ : Str) (h : l₁ <+: l₂) (c : Char)
    (hc : l₁.head? = some c) : l₂.head? = some c := by
  obtain ⟨t, rfl⟩ := h
  cases l₁ with
  | nil => simp at hc
  | cons a r =>
    injection hc with hc
    rw [List.cons_append, hc]
    rfl

theorem lstrip_id (s : Str) (h : ∀ c, s.head? = some c → pySpace c = false) :
    lstrip s = s := by
  unfold lstrip
  cases s with
  | nil => rfl
  | cons c r => exact List.dropWhile_cons_of_neg (by simp [h c rfl])

theorem rstrip_id (s : Str) (h : ∀ c, s.getLast? = some c → pySpace c = false) :
    rstrip s = s := by
  unfold rstrip
  cases hr : s.reverse with
  | nil =>
    rw [List.dropWhile_nil]
    rw [show s = s.reverse.reverse from (List.reverse_reverse s).symm, hr]
  | cons c t =>
    have hc : s.getLast? = some c := by
      rw [← List.head?_reverse, hr]
      rfl
    rw [List.dropWhile_cons_of_neg (by simp [h c hc]), ← hr,
      List.reverse_reverse]

theorem strip_id (s : Str) (hh : ∀ c, s.head? = some c → pySpace c = false)
    (hl : ∀ c, s.getLast? = some c → pySpace c = false) : strip s = s := by
  unfold strip
  rw [lstrip_id s hh, rstrip_id s hl]

theorem strip_head_nonws (s : Str) :
    ∀ c, (strip s).head? = some c → pySpace c = false := by
  intro c hc
  have hpre : strip s <+: lstrip s := revDropRev_front pySpace (lstrip s)
  have hc2 : (lstrip s).head? = some c := prefix_head _ _ hpre c hc
  exact dropWhile_head_not pySpace s c hc2

theorem strip_getLast_nonws (s : Str) :
    ∀ c, (strip s).getLast? = some c → pySpace c = false := by
  intro c hc
  unfold strip rstrip at hc
  rw [List.getLast?_reverse] at hc
  exact dropWhile_head_not pySpace (lstrip s).reverse c hc

end ShellMaster

namespace ShellMaster

/-- Whether `s` has an opening brace with a closing brace somewhere after
it — exactly the condition under which `re.search(r"\x7b[\s\S]*\x7d", s)`
matches. -/
def pairB (s : Str) : Bool := (s.dropWhile fun c => c ≠ '\x7b').contains '\x7d'

theorem extractBraces_eq (s : Str) :
    extractBraces s =
      if ((s.dropWhile fun c => c ≠ '\x7b').reverse.dropWhile
          fun c => c ≠ '\x7d').reverse = []
      then s
      else ((s.dropWhile fun c => c ≠ '\x7b').reverse.dropWhile
          fun c => c ≠ '\x7d').reverse := rfl

theorem extract_b_nil_iff (s : Str) :
    (((s.dropWhile fun c => c ≠ '\x7b').reverse.dropWhile
        fun c => c ≠ '\x7d').reverse = []) ↔ pairB s = false := by
  unfold pairB
  rw [List.reverse_eq_nil_iff, List.dropWhile_eq_nil_iff]
  constructor
  · intro h
    rw [Bool.eq_false_iff]
    intro hc
    have hm := (containsChar_iff _ _).mp hc
    have h2 := h '\x7d' (List.mem_reverse.mpr hm)
    simp at h2
  · intro h x hx
    simp only [decide_eq_true_eq]
    intro heq
    subst heq
    have hm := List.mem_reverse.mp hx
    rw [show ((s.dropWhile fun c => c ≠ '\x7b').contains '\x7d') = true from
      (containsChar_iff _ _).mpr hm] at h
    exact Bool.noConfusion h

theorem pairB_false_extract_id (s : Str) (h : pairB s = false) :
    extractBraces s = s := by
  rw [extractBraces_eq, if_pos ((extract_b_nil_iff s).mpr h)]

theorem extract_cases (s : Str) :
    pairB s = false ∨
      ((extractBraces s).head? = some '\x7b' ∧
       (extractBraces s).getLast? = some '\x7d') := by
  cases hv : pairB s with
  | false => exact Or.inl rfl
  | true =>
    right
    have hbne : (((s.dropWhile fun c => c ≠ '\x7b').reverse.dropWhile
        fun c => c ≠ '\x7d').reverse) ≠ [] := by
      intro hb
      rw [(extract_b_nil_iff s).mp hb] at hv
      exact Bool.noConfusion hv
    rw [extractBraces_eq, if_neg hbne]
    constructor
    · obtain ⟨c, t, hct⟩ := List.exists_cons_of_ne_nil hbne
      have hbhead : (((s.dropWhile fun c => c ≠ '\x7b').reverse.dropWhile
          fun c => c ≠ '\x7d').reverse).head? = some c := by
        rw [hct]; rfl
      have hpre := revDropRev_front (fun c => decide (c ≠ '\x7d'))
        (s.dropWhile fun c => c ≠ '\x7b')
      have hahead := prefix_head _ _ hpre c hbhead
      have hfail := dropWhile_head_not (fun c => decide (c ≠ '\x7b')) s c hahead
      have hc : c = '\x7b' := by simpa using hfail
      exact hc ▸ hbhead
    · rw [List.getLast?_reverse]
      cases hd : ((s.dropWhile fun c => c ≠ '\x7b').reverse.dropWhile
          fun c => c ≠ '\x7d').head? with
      | none =>
        exfalso
        apply hbne
        rw [List.head?_eq_none_iff.mp hd]
        rfl
      | some d =>
        have hdd := dropWhile_head_not (fun c => decide (c ≠ '\x7d')) _ d hd
        have : d = '\x7d' := by simpa using hdd
        exact congrArg some this

theorem pairB_true_iff (t : Str) :
    pairB t = true ↔ List.Sublist ['\x7b', '\x7d'] t := by
  constructor
  · intro h
    unfold pairB at h
    have hm := (containsChar_iff _ _).mp h
    cases ha : t.dropWhile fun c => c ≠ '\x7b' with
    | nil => rw [ha] at hm; simp at hm
    | cons c r =>
      have hahead : (t.dropWhile fun c => c ≠ '\x7b').head? = some c := by
        rw [ha]; rfl
      have hfail := dropWhile_head_not (fun c => decide (c ≠ '\x7b')) t c hahead
      have hc : c = '\x7b' := by simpa using hfail
      rw [ha, hc] at hm
      have hmr : '\x7d' ∈ r := by
        rcases List.mem_cons.mp hm with h1 | h1
        · exact absurd h1 (by decide)
        · exact h1
      have hsub : List.Sublist ['\x7b', '\x7d'] ('\x7b' :: r) :=
        List.Sublist.cons₂ '\x7b' (List.singleton_sublist.mpr hmr)
      have hsub2 : List.Sublist ('\x7b' :: r) t := by
        rw [← hc, ← ha]
        exact List.dropWhile_sublist _
      exact hsub.trans hsub2
  · intro h
    induction t with
    | nil => simp at h
    | cons c t' ih =>
      cases h with
      | cons a h2 =>
        have hp := ih h2
        unfold pairB at hp ⊢
        have hm : '\x7d' ∈ t' :=
          (List.dropWhile_sublist _).subset ((containsChar_iff _ _).mp hp)
        by_cases hc : c = '\x7b'
        · rw [List.dropWhile_cons_of_neg (by simp [hc])]
          exact (containsChar_iff _ _).mpr (List.mem_cons_of_mem c hm)
        · rw [List.dropWhile_cons_of_pos (by simp [hc])]
          exact hp
      | cons₂ a h2 =>
        have hm : '\x7d' ∈ t' := List.singleton_sublist.mp h2
        unfold pairB
        rw [List.dropWhile_cons_of_neg (by simp)]
        exact (containsChar_iff _ _).mpr (List.mem_cons_of_mem _ hm)

theorem pairB_sublist (y z : Str) (hsub : List.Sublist y z)
    (h : pairB z = false) : pairB y = false := by
  cases hv : pairB y with
  | false => rfl
  | true =>
    rw [(pairB_true_iff z).mpr (((pairB_true_iff y).mp hv).trans hsub)] at h
    exact Bool.noConfusion h

theorem pairB_quoteFix_false (z : Str) (h : pairB z = false) :
    pairB (quoteFix z) = false := by
  cases hv : pairB (quoteFix z) with
  | false => rfl
  | true =>
    exfalso
    have hsub := (pairB_true_iff _).mp hv
    unfold quoteFix at hsub
    obtain ⟨l', hl', heq⟩ := List.sublist_map_iff.mp hsub
    cases l' with
    | nil => simp at heq
    | cons a l2 =>
      cases l2 with
      | nil => simp at heq
      | cons b l3 =>
        cases l3 with
        | cons e l4 => simp at heq
        | nil =>
          have ha : (if a = '\x27' then '"' else a) = '\x7b' := by
            have h5 := congrArg (fun l : Str => l.head?) heq
            simpa using h5.symm
          have hb : (if b = '\x27' then '"' else b) = '\x7d' := by
            have h5 := congrArg (fun l : Str => l.getLast?) heq
            simpa using h5.symm
          have ha2 : a = '\x7b' := by
            by_cases h27 : a = '\x27'
            · rw [if_pos h27] at ha; exact absurd ha (by decide)
            · rwa [if_neg h27] at ha
          have hb2 : b = '\x7d' := by
            by_cases h27 : b = '\x27'
            · rw [if_pos h27] at hb; exact absurd hb (by decide)
            · rwa [if_neg h27] at hb
          rw [(pairB_true_iff z).mpr (by rw [← ha2, ← hb2]; exact hl')] at h
          exact Bool.noConfusion h

theorem extract_id_of_braces (s : Str) (hh : s.head? = some '\x7b')
    (hl : s.getLast? = some '\x7d') : extractBraces s = s := by
  have hsne : s ≠ [] := by
    intro h
    rw [h] at hh
    simp at hh
  have hb : ((s.dropWhile fun c => c ≠ '\x7b').reverse.dropWhile
      fun c => c ≠ '\x7d').reverse = s := by
    have ha : (s.dropWhile fun c => c ≠ '\x7b') = s := by
      cases s with
      | nil => rfl
      | cons c r =>
        injection hh with hh2
        rw [hh2]
        exact List.dropWhile_cons_of_neg (by simp)
    rw [ha]
    have hrev : s.reverse.head? = some '\x7d' := by
      rw [List.head?_reverse]
      exact hl
    obtain ⟨d, t, hdt⟩ := List.exists_cons_of_ne_nil
      (show s.reverse ≠ [] by simpa using hsne)
    have hd : d = '\x7d' := by
      rw [hdt] at hrev
      injection hrev
    rw [hdt, List.dropWhile_cons_of_neg (by simp [hd]), ← hdt,
      List.reverse_reverse]
  rw [extractBraces_eq, hb, if_neg hsne]

theorem commaFix_head_keep (close c : Char) (hne : c ≠ ',') (s : Str)
    (hs : s.head? = some c) :
    (commaFixAux close none s).head? = some c := by
  cases s with
  | nil => simp at hs
  | cons a r =>
    injection hs with hs2
    subst hs2
    rw [commaFixAux_none_cons, if_neg hne]
    rfl

end ShellMaster

namespace ShellMaster

theorem fix_id_of_clean (y : Str)
    (ht : hasTriple y = false)
    (h2 : hasCC '\x7d' y = false)
    (h3 : hasCC ']' y = false)
    (hq : ∀ c ∈ y, c ≠ '\x27')
    (hh : ∀ c, y.head? = some c → pySpace c = false)
    (hl : ∀ c, y.getLast? = some c → pySpace c = false)
    (he : extractBraces y = y) :
    fix_json_string y = y := by
  unfold fix_json_string
  rw [show rmTicksJson y = y from rmTicksJson_id y ht,
    show rmTicks y = y from rmTicks_id y ht,
    strip_id y hh hl, he, quoteFix_id y hq,
    show commaFix '\x7d' y = y from commaFix_id '\x7d' (by decide) y h2,
    show commaFix ']' y = y from commaFix_id ']' (by decide) y h3]

set_option maxHeartbeats 2000000 in
theorem fix_output_clean (s : Str) :
    (∀ c ∈ fix_json_string s, c ≠ '\x27') ∧
    (∀ c, (fix_json_string s).head? = some c → pySpace c = false) ∧
    (∀ c, (fix_json_string s).getLast? = some c → pySpace c = false) ∧
    extractBraces (fix_json_string s) = fix_json_string s := by
  have hdef : fix_json_string s =
      commaFixAux ']' none (commaFixAux '\x7d' none (quoteFix
        (extractBraces (strip (rmTicks (rmTicksJson s)))))) := rfl
  rw [hdef]
  set E := extractBraces (strip (rmTicks (rmTicksJson s))) with hE
  set Q := quoteFix E with hQ
  set C1 := commaFixAux '\x7d' none Q with hC1
  have hEhead : ∀ c, E.head? = some c → pySpace c = false := by
    rcases extract_cases (strip (rmTicks (rmTicksJson s))) with hpb | ⟨hh1, _⟩
    · rw [hE, pairB_false_extract_id _ hpb]
      exact strip_head_nonws (rmTicks (rmTicksJson s))
    · intro c hcc
      rw [hE] at hcc
      rw [hh1] at hcc
      injection hcc with hcc
      rw [← hcc]
      decide
  have hElast : ∀ c, E.getLast? = some c → pySpace c = false := by
    rcases extract_cases (strip (rmTicks (rmTicksJson s))) with hpb | ⟨_, hl1⟩
    · rw [hE, pairB_false_extract_id _ hpb]
      exact strip_getLast_nonws (rmTicks (rmTicksJson s))
    · intro c hcc
      rw [hE] at hcc
      rw [hl1] at hcc
      injection hcc with hcc
      rw [← hcc]
      decide
  refine ⟨?_, ?_, ?_, ?_⟩
  · intro c hc
    have hc1 := ((commaFixAux_sublist ']' C1).2).subset hc
    have hc2 := ((commaFixAux_sublist '\x7d' Q).2).subset hc1
    rw [hQ] at hc2
    exact quoteFix_no_quote E c hc2
  · exact commaFix_head_nonws ']' (by decide) C1
      (commaFix_head_nonws '\x7d' (by decide) Q
        (quoteFix_head_nonws E hEhead))
  · intro c hc
    cases hq : Q.getLast? with
    | none =>
      have hQnil : Q = [] := List.getLast?_eq_none_iff.mp hq
      rw [hC1, hQnil] at hc
      simp [commaFixAux] at hc
    | some L =>
      have hLw := quoteFix_getLast_nonws E hElast L (hQ ▸ hq)
      have g1 := ((commaFixAux_getLast '\x7d' Q L hq hLw).2)
      have g2 := ((commaFixAux_getLast ']' C1 L (hC1 ▸ g1) hLw).2)
      have hcL := g2.symm.trans hc
      injection hcL with hcL
      rw [← hcL]
      exact hLw
  · rcases extract_cases (strip (rmTicks (rmTicksJson s))) with hpb | ⟨hh1, hl1⟩
    · have hEpb : pairB E = false := by
        rw [hE, pairB_false_extract_id _ hpb]
        exact hpb
      have hQpb : pairB Q = false := by
        rw [hQ]
        exact pairB_quoteFix_false E hEpb
      have hC1pb : pairB C1 = false :=
        pairB_sublist C1 Q (commaFixAux_sublist '\x7d' Q).2 hQpb
      exact pairB_false_extract_id _
        (pairB_sublist _ C1 (commaFixAux_sublist ']' C1).2 hC1pb)
    · have hQh : Q.head? = some '\x7b' := by
        rw [hQ]
        unfold quoteFix
        rw [List.head?_map, hE, hh1]
        simp
      have hQl : Q.getLast? = some '\x7d' := by
        rw [hQ]
        unfold quoteFix
        rw [List.getLast?_map, hE, hl1]
        simp
      have hC1h : C1.head? = some '\x7b' := by
        rw [hC1]
        exact commaFix_head_keep '\x7d' '\x7b' (by decide) Q hQh
      have hC1l : C1.getLast? = some '\x7d' :=
        hC1 ▸ (commaFixAux_getLast '\x7d' Q '\x7d' hQl (by decide)).2
      exact extract_id_of_braces _
        (commaFix_head_keep ']' '\x7b' (by decide) C1 hC1h)
        ((commaFixAux_getLast ']' C1 '\x7d' hC1l (by decide)).2)

end ShellMaster

namespace ShellMaster

/-- C9: counterexample. `fix_json_string` is not idempotent: on the
input `\x7b,,\x7d` one application deletes only the second comma (the
regex scan cannot match the first comma, whose follower is another
comma), giving `\x7b,\x7d`, and a second application deletes the
remaining comma, giving `\x7b\x7d`. -/
theorem c9_counterexample :
    fix_json_string (lit "\x7b,,\x7d") = lit "\x7b,\x7d" ∧
    fix_json_string (fix_json_string (lit "\x7b,,\x7d")) = lit "\x7b\x7d" ∧
    fix_json_string (fix_json_string (lit "\x7b,,\x7d")) ≠
      fix_json_string (lit "\x7b,,\x7d") := by
  refine ⟨by decide, by decide, by decide⟩

/-- C9 (amended): `fix_json_string` is idempotent on every input whose
repaired output contains no three consecutive backticks and no residual
comma-whitespace-closer pattern (`,\s*\x7d` or `,\s*]`).  The proof
shows the other repair stages can never re-fire on an output: the output
has no single quotes, no edge whitespace, and is stable under brace
extraction, so only leftover backtick fences or comma-closer patterns
(which the one-pass regex scan can leave behind, as in the
counterexample) can make a second application differ. -/
theorem c9_amended (s : Str)
    (h1 : hasTriple (fix_json_string s) = false)
    (h2 : hasCC '\x7d' (fix_json_string s) = false)
    (h3 : hasCC ']' (fix_json_string s) = false) :
    fix_json_string (fix_json_string s) = fix_json_string s := by
  obtain ⟨hq, hh, hl, he⟩ := fix_output_clean s
  exact fix_id_of_clean (fix_json_string s) h1 h2 h3 hq hh hl he

/-- C9: witness for the amended claim at a concrete input: a fenced
LLM-style payload whose repaired output is clean, hence a fixed point. -/
theorem c9_witness :
    fix_json_string (fix_json_string
      (lit "\x60\x60\x60json \x7ba: 1\x7d\x60\x60\x60")) =
    fix_json_string (lit "\x60\x60\x60json \x7ba: 1\x7d\x60\x60\x60") :=
  c9_amended (lit "\x60\x60\x60json \x7ba: 1\x7d\x60\x60\x60")
    (by decide) (by decide) (by decide)

end ShellMaster
